import Mathlib

/-!
# Timetable generator (`index.c`): embedding and verification

The C program reads a list of subjects (name, classes per week, excluded days,
faculty), the number of working days and of periods per day, checks that the
request is feasible and then fills the timetables of two sections by random
placement with a retry ceiling.

Conventions of the embedding:

* a C string is the list of its characters before the terminating NUL
  (`CString`); `strcmp(a, b) == 0` is equality, `strstr(h, n) != NULL` is
  `strstr_found h n`;
* an `int` is an integer between `INT_MIN` and `INT_MAX`, and the arithmetic of
  the feasibility checks of `main` wraps around modulo `2 ^ 32` (`wrap`), as it
  does on the two's-complement machines the program runs on (C itself leaves
  signed overflow undefined). The counters of the placement loop stay between
  `0` and their start value, so no wrap is written there, and `attempts` is a
  natural number;
* `rand()` is a stream `rnd : Nat → Nat`: `rnd k` is the value returned by the
  `k`-th call after `srand`;
* the array `sections` is modelled with its layout in memory: a `Section` is
  `MAX_DAYS * MAX_PERIODS` cells of `MAX_NAME_LENGTH` bytes followed by `name`,
  and `sections[s].timetable[d][p]` designates the string number
  `string_index s d p` of the array, whether or not `d` and `p` are within
  `MAX_DAYS` and `MAX_PERIODS`. So `timetable[0][10]` is `timetable[1][0]`,
  `timetable[6][10]` is `name`, and `timetable[6][11]` of Section A is
  `timetable[0][0]` of Section B. Past the last section the model lets the array
  go on, where in C the memory of other objects follows;
* `day_names` is the list of its entries, and `day_names[d]` outside it reads as
  the empty string (in C the access is undefined);
* `subjects[i].constraints` is the list of the `num_constraints` stored strings;
* `AllocState.written` is a ghost record of the assignments made, most recent
  first: the C code keeps no such record, it only stores the text of the cell.
-/

namespace Timetable

/-! ## Constants and data -/

/-- The `#define`d sizes of the program. -/
def MAX_SUBJECTS : Nat := 5

def MAX_DAYS : Nat := 7

def MAX_PERIODS : Nat := 10

def MAX_NAME_LENGTH : Nat := 20

def MAX_FACULTY : Nat := 5

def MAX_SECTIONS : Nat := 2

/-- A NUL-terminated C string, as the list of characters before the NUL. -/
abbrev CString := List Char

/-- The `Subject` struct; `num_constraints` is the length of `constraints`. -/
structure Subject where
  name : CString
  classes_per_week : Int
  constraints : List CString
  faculty : CString

/-- The field `num_constraints`. -/
def Subject.num_constraints (sub : Subject) : Nat := sub.constraints.length

/-- The `Section` struct. The cells of the array `timetable` are the values at
`d < MAX_DAYS` and `p < MAX_PERIODS`; no other value of the function is read or
written (see `string_at`, `set_string`). -/
structure Section where
  timetable : Nat → Nat → CString
  name : CString

/-- One assignment made by the allocator: subject number `subject` was written
into cell `(day, period)` of section number `sec`. -/
structure Placement where
  sec : Nat
  subject : Nat
  day : Nat
  period : Nat
deriving DecidableEq, Repr

/-- The memory the allocator works on: the array of sections, the number of
calls of `rand()` made so far, and the ghost record of assignments. -/
structure AllocState where
  sections : Nat → Section
  rand_calls : Nat
  written : List Placement

/-- The locals of the placement loop of one (section, subject) pair. -/
structure LoopState where
  remaining : Int
  attempts : Nat
  alloc : AllocState

/-- How `distribute_subjects` ends: it returns, or it prints "Could not place
all classes" and exits, or it evaluates `rand() % 0`. -/
inductive Outcome where
  | completed
  | placement_failed (sec subject : Nat) (remaining : Int)
  | division_by_zero
deriving DecidableEq, Repr

/-! ## String helpers -/

/-- The function `to_lower_case`: `tolower` on every character. -/
def to_lower_case (str : CString) : CString := str.map Char.toLower

/-- The test `strstr(haystack, needle) != NULL`: `needle` occurs in `haystack`
at some position (the empty needle occurs in every haystack). -/
def strstr_found : CString → CString → Bool
  | [], needle => needle.isEmpty
  | c :: rest, needle => needle.isPrefixOf (c :: rest) || strstr_found rest needle

/-- The text `"Free"`. -/
def FREE : CString := "Free".toList

/-- The text `"Unassigned"`. -/
def UNASSIGNED : CString := "Unassigned".toList

/-- What `snprintf(entry, MAX_NAME_LENGTH, "%s(%c)", name, faculty[0])` leaves
in `entry`: at most `MAX_NAME_LENGTH - 1` characters of the formatted text. For
an empty faculty string `faculty[0]` is the NUL character, which ends the
string right after the opening bracket. -/
def format_entry (sub : Subject) : CString :=
  (sub.name ++ '(' :: (match sub.faculty with
                        | [] => []
                        | c :: _ => [c, ')'])).take (MAX_NAME_LENGTH - 1)

/-! ## The array `sections` in memory -/

/-- The number of strings of `MAX_NAME_LENGTH` bytes in one `Section`: the cells
of `timetable`, then `name`. -/
def SECTION_STRINGS : Nat := MAX_DAYS * MAX_PERIODS + 1

/-- The position of the object that `sections[s].timetable[d][p]` designates,
counted in strings of `MAX_NAME_LENGTH` bytes from the start of `sections`. -/
def string_index (s d p : Nat) : Nat := s * SECTION_STRINGS + d * MAX_PERIODS + p

/-- The string number `g` of the array `sections`: a cell of the timetable of
section `g / SECTION_STRINGS`, or its name. -/
def string_at (sections : Nat → Section) (g : Nat) : CString :=
  if g % SECTION_STRINGS = MAX_DAYS * MAX_PERIODS then (sections (g / SECTION_STRINGS)).name
  else
    (sections (g / SECTION_STRINGS)).timetable
      (g % SECTION_STRINGS / MAX_PERIODS) (g % SECTION_STRINGS % MAX_PERIODS)

/-- The array `sections` after `strcpy` of `text` into its string number `g`. -/
def set_string (sections : Nat → Section) (g : Nat) (text : CString) : Nat → Section :=
  fun s =>
    if s = g / SECTION_STRINGS then
      if g % SECTION_STRINGS = MAX_DAYS * MAX_PERIODS then { sections s with name := text }
      else
        { sections s with
          timetable := fun d p =>
            if d = g % SECTION_STRINGS / MAX_PERIODS ∧ p = g % SECTION_STRINGS % MAX_PERIODS
            then text else (sections s).timetable d p }
    else sections s

/-- The string that the expression `sections[s].timetable[d][p]` reads. -/
def read_cell (sections : Nat → Section) (s d p : Nat) : CString :=
  string_at sections (string_index s d p)

/-- The assignment `strcpy(sections[s].timetable[d][p], entry)`. -/
def write_cell (sections : Nat → Section) (s d p : Nat) (entry : CString) : Nat → Section :=
  set_string sections (string_index s d p) entry

/-! ## The clash checks -/

/-- The function `is_faculty_available`. -/
def is_faculty_available (faculty : CString) (day period : Nat)
    (sections : Nat → Section) (current_section : Nat) : Bool :=
  if faculty = UNASSIGNED then true
  else
    !(List.range MAX_SECTIONS).any fun s =>
      s != current_section && strstr_found (read_cell sections s day period) faculty

/-- The function `is_subject_clash`. -/
def is_subject_clash (subject : CString) (day period : Nat)
    (sections : Nat → Section) (current_section : Nat) : Bool :=
  (List.range MAX_SECTIONS).any fun s =>
    s != current_section && strstr_found (read_cell sections s day period) subject

/-! ## The allocator -/

/-- The local `max_attempts` of `distribute_subjects`. -/
def max_attempts : Nat := 10000

/-- The value of `rand() % m` as an array index, where `r` is what `rand()`
returned; `none` when `m` is zero. C's `%` truncates towards zero, so for
`r ≥ 0` the result is never negative. -/
def rand_mod (r : Nat) (m : Int) : Option Nat :=
  if m = 0 then none else some (Int.tmod r m).toNat

/-- The scan of `subjects[i].constraints` for `lowday` (the loop setting `skip`). -/
def day_constrained : List CString → CString → Bool
  | [], _ => false
  | c :: rest, lowday => if c = lowday then true else day_constrained rest lowday

/-- A rejected draw: `attempts++; continue;`. -/
def reject (st : LoopState) : LoopState := { st with attempts := st.attempts + 1 }

/-- The body of the placement loop after the draw `(d, p)` has been made, for
subject number `i` (`sub`) in section `s`. -/
def loop_body (day_names : List CString) (sub : Subject) (i s d p : Nat)
    (st : LoopState) : LoopState :=
  if read_cell st.alloc.sections s d p ≠ FREE then reject st
  else if !is_faculty_available sub.faculty d p st.alloc.sections s then reject st
  else if is_subject_clash sub.name d p st.alloc.sections s then reject st
  else
    let lowday := to_lower_case (day_names.getD d [])
    if day_constrained sub.constraints lowday then reject st
    else
      { remaining := st.remaining - 1
        attempts := 0
        alloc :=
          { sections := write_cell st.alloc.sections s d p (format_entry sub)
            rand_calls := st.alloc.rand_calls
            written := ⟨s, i, d, p⟩ :: st.alloc.written } }

/-- The state after the two calls of `rand()` of one iteration. -/
def after_draw (st : LoopState) : LoopState :=
  { st with alloc := { st.alloc with rand_calls := st.alloc.rand_calls + 2 } }

/-- The iterations of the loop never leave this measure undiminished. -/
def loop_measure (st : LoopState) : Nat :=
  st.remaining.toNat * max_attempts + (max_attempts - st.attempts)

set_option linter.unusedVariables false in
/-- The placement loop `while (remaining > 0 && attempts < max_attempts)` of
one (section, subject) pair. `Except.error st` is the evaluation of
`rand() % 0` in state `st`. -/
def while_loop (working_days periods_per_day : Int) (rnd : Nat → Nat)
    (day_names : List CString) (sub : Subject) (i s : Nat)
    (st : LoopState) : Except LoopState LoopState :=
  if h : 0 < st.remaining ∧ st.attempts < max_attempts then
    match rand_mod (rnd st.alloc.rand_calls) working_days,
          rand_mod (rnd (st.alloc.rand_calls + 1)) periods_per_day with
    | some d, some p =>
      while_loop working_days periods_per_day rnd day_names sub i s
        (loop_body day_names sub i s d p (after_draw st))
    | _, _ => .error st
  else .ok st
termination_by loop_measure st
decreasing_by
  obtain ⟨hr, ha⟩ := h
  have hcases : loop_body day_names sub i s d p (after_draw st) = reject (after_draw st) ∨
      ((loop_body day_names sub i s d p (after_draw st)).remaining = st.remaining - 1 ∧
       (loop_body day_names sub i s d p (after_draw st)).attempts = 0) := by
    unfold loop_body
    split
    · exact Or.inl rfl
    · split
      · exact Or.inl rfl
      · split
        · exact Or.inl rfl
        · dsimp only
          split
          · exact Or.inl rfl
          · exact Or.inr ⟨rfl, rfl⟩
  rcases hcases with h1 | ⟨h1, h2⟩
  · rw [h1]
    simp only [loop_measure, reject, after_draw, max_attempts] at *
    omega
  · unfold loop_measure
    rw [h1, h2]
    have h3 : (st.remaining - 1).toNat + 1 = st.remaining.toNat := by omega
    rw [← h3]
    simp only [max_attempts] at *
    omega

/-- The loop `for (int i = 0; i < num_subjects; i++)` of section `s`, from
subject number `i` on; the list holds `subjects[i]`, `subjects[i+1]`, ... -/
def subjects_loop (working_days periods_per_day : Int) (rnd : Nat → Nat)
    (day_names : List CString) (s : Nat) :
    List Subject → Nat → AllocState → Outcome × AllocState
  | [], _, st => (.completed, st)
  | sub :: rest, i, st =>
    match while_loop working_days periods_per_day rnd day_names sub i s
        ⟨sub.classes_per_week, 0, st⟩ with
    | .error st' => (.division_by_zero, st'.alloc)
    | .ok st' =>
      if 0 < st'.remaining then (.placement_failed s i st'.remaining, st'.alloc)
      else subjects_loop working_days periods_per_day rnd day_names s rest (i + 1) st'.alloc

/-- The loop `for (int s = 0; s < MAX_SECTIONS; s++)`, over the section numbers
still to be processed. -/
def sections_loop (subjects : List Subject) (working_days periods_per_day : Int)
    (rnd : Nat → Nat) (day_names : List CString) :
    List Nat → AllocState → Outcome × AllocState
  | [], st => (.completed, st)
  | s :: rest, st =>
    match subjects_loop working_days periods_per_day rnd day_names s subjects 0 st with
    | (.completed, st') =>
      sections_loop subjects working_days periods_per_day rnd day_names rest st'
    | r => r

/-- The function `distribute_subjects`; `num_subjects` is the length of
`subjects`, and `rnd` is the stream that `rand()` yields after `srand`. -/
def distribute_subjects (subjects : List Subject) (sections : Nat → Section)
    (working_days periods_per_day : Int) (day_names : List CString)
    (rnd : Nat → Nat) : Outcome × AllocState :=
  sections_loop subjects working_days periods_per_day rnd day_names
    (List.range MAX_SECTIONS) ⟨sections, 0, []⟩

/-! ## The feasibility checks and `main` -/

/-- The least `int`. -/
def INT_MIN : Int := -2147483648

/-- The greatest `int`. -/
def INT_MAX : Int := 2147483647

/-- The `int` that the machine stores for the mathematical value `x`: the value
between `INT_MIN` and `INT_MAX` that differs from `x` by a multiple of `2 ^ 32`. -/
def wrap (x : Int) : Int := (x + 2147483648) % 4294967296 - 2147483648

/-- The three error exits of `main` before the allocation. -/
inductive Rejection where
  | capacity_exceeded (total_required total_available : Int)
  | no_available_days (subject : Nat)
  | too_many_periods (subject : Nat) (required max_slots : Int)
deriving DecidableEq, Repr

/-- The loop `total_required += subjects[i].classes_per_week`. -/
def total_required (subjects : List Subject) : Int :=
  subjects.foldl (fun acc sub => wrap (acc + sub.classes_per_week)) 0

/-- The loop "check individual subject constraints" of `main`, from subject
number `i` on. -/
def check_subjects (working_days periods_per_day : Int) :
    List Subject → Nat → Option Rejection
  | [], _ => none
  | sub :: rest, i =>
    let available_days : Int := wrap (working_days - sub.num_constraints)
    let max_slots : Int := wrap (wrap (available_days * periods_per_day) * MAX_SECTIONS)
    if available_days < 1 then some (.no_available_days i)
    else if sub.classes_per_week > max_slots then
      some (.too_many_periods i sub.classes_per_week max_slots)
    else check_subjects working_days periods_per_day rest (i + 1)

/-- The feasibility part of `main` (the sanity check and the per-subject
checks): `none` when `main` goes on to the allocation. -/
def feasibility_check (subjects : List Subject) (working_days periods_per_day : Int) :
    Option Rejection :=
  let total_available : Int := wrap (wrap (working_days * periods_per_day) * MAX_SECTIONS)
  if total_required subjects > total_available then
    some (.capacity_exceeded (total_required subjects) total_available)
  else check_subjects working_days periods_per_day subjects 0

/-- The array `sections` after its initialiser: the names are set and the rest
is zeroed. -/
def initial_sections : Nat → Section :=
  fun s =>
    { timetable := fun _ _ => []
      name := if s = 0 then "Section A".toList else if s = 1 then "Section B".toList else [] }

/-- The array `sections` of `main` when `distribute_subjects` is called: after
the loops "initialize timetable with Free entries", which copy `"Free"` into
`sections[s].timetable[d][p]` for every section, working day and period. -/
def init_sections (working_days periods_per_day : Int) : Nat → Section :=
  (List.range MAX_SECTIONS).foldl
    (fun secs s =>
      (List.range working_days.toNat).foldl
        (fun secs d =>
          (List.range periods_per_day.toNat).foldl
            (fun secs p => write_cell secs s d p FREE) secs)
        secs)
    initial_sections

/-- The array `day_names` of `main`. -/
def main_day_names : List CString :=
  ["Monday".toList, "Tuesday".toList, "Wednesday".toList, "Thursday".toList,
   "Friday".toList, "Saturday".toList, "Sunday".toList]

/-- How `main` ends once the input has been read. -/
inductive MainResult where
  | rejected (r : Rejection)
  | scheduled (outcome : Outcome) (final : AllocState)

/-- The part of `main` after the input has been read into `subjects`,
`working_days` and `periods_per_day`: the feasibility checks, the initialisation
of the timetables, and the call of `distribute_subjects`. -/
def main (subjects : List Subject) (working_days periods_per_day : Int)
    (rnd : Nat → Nat) : MainResult :=
  match feasibility_check subjects working_days periods_per_day with
  | some r => .rejected r
  | none =>
    let r := distribute_subjects subjects (init_sections working_days periods_per_day)
      working_days periods_per_day main_day_names rnd
    .scheduled r.1 r.2

/-- The cells that a run of `main` has written. -/
def MainResult.written : MainResult → List Placement
  | .rejected _ => []
  | .scheduled _ final => final.written

/-! ## Derived notions used in the statements -/

/-- The placement loop with an explicit bound on the number of iterations;
`while_loop_eq_fuel` shows that `loop_measure` iterations always suffice. -/
def while_fuel (working_days periods_per_day : Int) (rnd : Nat → Nat)
    (day_names : List CString) (sub : Subject) (i s : Nat) :
    Nat → LoopState → Except LoopState LoopState
  | 0, st => .ok st
  | n + 1, st =>
    if 0 < st.remaining ∧ st.attempts < max_attempts then
      match rand_mod (rnd st.alloc.rand_calls) working_days,
            rand_mod (rnd (st.alloc.rand_calls + 1)) periods_per_day with
      | some d, some p =>
        while_fuel working_days periods_per_day rnd day_names sub i s n
          (loop_body day_names sub i s d p (after_draw st))
      | _, _ => .error st
    else .ok st

/-- The loop over the subjects with `while_fuel` for the placement loop. -/
def subjects_loop_fuel (working_days periods_per_day : Int) (rnd : Nat → Nat)
    (day_names : List CString) (s : Nat) :
    List Subject → Nat → AllocState → Outcome × AllocState
  | [], _, st => (.completed, st)
  | sub :: rest, i, st =>
    match while_fuel working_days periods_per_day rnd day_names sub i s
        (loop_measure ⟨sub.classes_per_week, 0, st⟩) ⟨sub.classes_per_week, 0, st⟩ with
    | .error st' => (.division_by_zero, st'.alloc)
    | .ok st' =>
      if 0 < st'.remaining then (.placement_failed s i st'.remaining, st'.alloc)
      else subjects_loop_fuel working_days periods_per_day rnd day_names s rest (i + 1)
        st'.alloc

/-- The loop over the sections with `while_fuel` for the placement loop. -/
def sections_loop_fuel (subjects : List Subject) (working_days periods_per_day : Int)
    (rnd : Nat → Nat) (day_names : List CString) :
    List Nat → AllocState → Outcome × AllocState
  | [], st => (.completed, st)
  | s :: rest, st =>
    match subjects_loop_fuel working_days periods_per_day rnd day_names s subjects 0 st with
    | (.completed, st') =>
      sections_loop_fuel subjects working_days periods_per_day rnd day_names rest st'
    | r => r

/-- The function `distribute_subjects` with `while_fuel` for the placement loop;
`distribute_subjects_eq_fuel` shows that it is the same function. -/
def distribute_fuel (subjects : List Subject) (sections : Nat → Section)
    (working_days periods_per_day : Int) (day_names : List CString)
    (rnd : Nat → Nat) : Outcome × AllocState :=
  sections_loop_fuel subjects working_days periods_per_day rnd day_names
    (List.range MAX_SECTIONS) ⟨sections, 0, []⟩

/-- The four conditions under which the loop body keeps the draw `(d, p)`. -/
def accepts (day_names : List CString) (sub : Subject) (s d p : Nat)
    (sections : Nat → Section) : Prop :=
  read_cell sections s d p = FREE ∧
  is_faculty_available sub.faculty d p sections s = true ∧
  is_subject_clash sub.name d p sections s = false ∧
  day_constrained sub.constraints (to_lower_case (day_names.getD d [])) = false

/-- A property of the timetables and of the record of assignments that every
kept draw preserves. -/
def Preserved (subjects : List Subject) (working_days periods_per_day : Int)
    (day_names : List CString) (I : (Nat → Section) → List Placement → Prop) : Prop :=
  ∀ s, s < MAX_SECTIONS → ∀ i sub, subjects[i]? = some sub →
    ∀ d p secs w, (∃ r, rand_mod r working_days = some d) →
      (∃ r, rand_mod r periods_per_day = some p) →
      I secs w → accepts day_names sub s d p secs →
      I (write_cell secs s d p (format_entry sub)) (⟨s, i, d, p⟩ :: w)

/-- The record of assignments agrees with the timetables: every recorded
assignment is of a subject of the list to a section of the array, its cell
holds the text written for that subject, and no string of the array is recorded
twice. -/
def Consistent (subjects : List Subject) (secs : Nat → Section) (w : List Placement) : Prop :=
  (∀ e ∈ w, e.sec < MAX_SECTIONS ∧ ∃ sub, subjects[e.subject]? = some sub ∧
    read_cell secs e.sec e.day e.period = format_entry sub) ∧
  (w.map fun e => string_index e.sec e.day e.period).Nodup

/-- No recorded assignment is on a day whose lower-cased name is among the
constraints of its subject. -/
def NoExcludedDay (subjects : List Subject) (day_names : List CString)
    (w : List Placement) : Prop :=
  ∀ e ∈ w, ∀ sub, subjects[e.subject]? = some sub →
    to_lower_case (day_names.getD e.day []) ∉ sub.constraints

/-- Every recorded assignment lies within the range of the draws: `rand() % m`
is below the absolute value of `m`. -/
def InRange (working_days periods_per_day : Int) (w : List Placement) : Prop :=
  ∀ e ∈ w, e.day < working_days.natAbs ∧ e.period < periods_per_day.natAbs

/-- The coordinates of the cells of section `s` written for subject `i`. -/
def cells_of (written : List Placement) (s i : Nat) : List (Nat × Nat) :=
  (written.filter fun e => e.sec = s ∧ e.subject = i).map fun e => (e.day, e.period)

/-- The cells of all sections written for subject `i`, as (section, day, period). -/
def cells_all (written : List Placement) (i : Nat) : List (Nat × Nat × Nat) :=
  (written.filter fun e => e.subject = i).map fun e => (e.sec, e.day, e.period)

/-- The cells `(d, p)` of section `s`, among the working days and periods, that
hold the string `text`: what the final printing of `main` shows as `text`. -/
def cells_showing (sections : Nat → Section) (working_days periods_per_day : Int)
    (s : Nat) (text : CString) : List (Nat × Nat) :=
  (List.range working_days.toNat).flatMap fun d =>
    ((List.range periods_per_day.toNat).filter fun p => read_cell sections s d p = text).map
      fun p => (d, p)

/-- The sum of `classes_per_week` over all subjects. -/
def sum_classes (subjects : List Subject) : Int :=
  (subjects.map Subject.classes_per_week).sum

/-- A subject fails a per-subject check of `main`: it has no available day, or
it asks for more periods than its available days offer. -/
def fails_check (working_days periods_per_day : Int) (sub : Subject) : Prop :=
  working_days - sub.num_constraints < 1 ∨
  sub.classes_per_week > (working_days - sub.num_constraints) * periods_per_day * MAX_SECTIONS

/-- The value `x` is an `int`. -/
def fits (x : Int) : Prop := INT_MIN ≤ x ∧ x ≤ INT_MAX

/-- No addition of the loop that computes `total_required` overflows, from the
running total `acc` on. -/
def sum_fits : List Subject → Int → Prop
  | [], _ => True
  | sub :: rest, acc =>
    fits (acc + sub.classes_per_week) ∧ sum_fits rest (acc + sub.classes_per_week)

/-- The product `a * b * MAX_SECTIONS` is computed without overflow. -/
def product_fits (a b : Int) : Prop := fits (a * b) ∧ fits (a * b * 2)

/-- The per-subject check of `main` is computed without overflow. -/
def subject_fits (working_days periods_per_day : Int) (sub : Subject) : Prop :=
  fits (working_days - sub.num_constraints) ∧
  product_fits (working_days - sub.num_constraints) periods_per_day

/-- No operation of the feasibility checks of `main` overflows. -/
def no_overflow (subjects : List Subject) (working_days periods_per_day : Int) : Prop :=
  sum_fits subjects 0 ∧ product_fits working_days periods_per_day ∧
  ∀ sub ∈ subjects, subject_fits working_days periods_per_day sub

/-- The three conditions under which `main` goes on to the allocation. -/
def feasible (subjects : List Subject) (working_days periods_per_day : Int) : Prop :=
  sum_classes subjects ≤ working_days * periods_per_day * 2 ∧
  (∀ sub ∈ subjects, working_days - sub.num_constraints ≥ 1) ∧
  (∀ sub ∈ subjects,
    sub.classes_per_week ≤ (working_days - sub.num_constraints) * periods_per_day * 2)

/-- Every string of the array holds what it held at the start, or is the cell
of a recorded assignment. -/
def InitialOrWritten (init secs : Nat → Section) (w : List Placement) : Prop :=
  ∀ g, string_at secs g = string_at init g ∨
    ∃ e ∈ w, string_index e.sec e.day e.period = g

/-- The state in which the placement loop ends, by its exit or by `rand() % 0`. -/
def final_state : Except LoopState LoopState → LoopState
  | .ok r => r
  | .error r => r

/-- An upper bound on the number of iterations that the placement loop still
makes from a state: `max_attempts` for each class but the next, and what is left
of the attempts for the next class. -/
def draws_left (st : LoopState) : Nat :=
  if 0 < st.remaining then
    (st.remaining.toNat - 1) * max_attempts + (max_attempts - st.attempts)
  else 0

/-- The sum of the positive `classes_per_week` of the subjects. -/
def sum_positive_classes (subjects : List Subject) : Nat :=
  (subjects.map fun sub => sub.classes_per_week.toNat).sum

/-- The state of the placement loop after `n` complete iterations from `st`, or
`none` when the loop has ended before (by its exit or by `rand() % 0`). -/
def loop_state_after (working_days periods_per_day : Int) (rnd : Nat → Nat)
    (day_names : List CString) (sub : Subject) (i s : Nat) :
    Nat → LoopState → Option LoopState
  | 0, st => some st
  | n + 1, st =>
    if 0 < st.remaining ∧ st.attempts < max_attempts then
      match rand_mod (rnd st.alloc.rand_calls) working_days,
            rand_mod (rnd (st.alloc.rand_calls + 1)) periods_per_day with
      | some d, some p =>
        loop_state_after working_days periods_per_day rnd day_names sub i s n
          (loop_body day_names sub i s d p (after_draw st))
      | _, _ => none
    else none

/-- Iteration number `k` (from 0) of the placement loop started in `st` takes
place, with `remaining > 0` and `attempts < max_attempts`, and its draw is
rejected. -/
def draw_rejected (working_days periods_per_day : Int) (rnd : Nat → Nat)
    (day_names : List CString) (sub : Subject) (i s : Nat) (st : LoopState) (k : Nat) : Prop :=
  ∃ stk d p,
    loop_state_after working_days periods_per_day rnd day_names sub i s k st = some stk ∧
    (0 < stk.remaining ∧ stk.attempts < max_attempts) ∧
    rand_mod (rnd stk.alloc.rand_calls) working_days = some d ∧
    rand_mod (rnd (stk.alloc.rand_calls + 1)) periods_per_day = some p ∧
    ¬ accepts day_names sub s d p stk.alloc.sections

/-- In the placement loop started in `st`, `max_attempts` consecutive draws are
rejected. -/
def rejected_streak (working_days periods_per_day : Int) (rnd : Nat → Nat)
    (day_names : List CString) (sub : Subject) (i s : Nat) (st : LoopState) : Prop :=
  ∃ k, ∀ j, j < max_attempts →
    draw_rejected working_days periods_per_day rnd day_names sub i s st (k + j)

/-- The run of `distribute_subjects` up to the moment at which the pair of
section `s` and subject `i` is taken up: the sections before `s` in full, and
the subjects before `i` in section `s`. -/
def pair_start (subjects : List Subject) (sections : Nat → Section)
    (working_days periods_per_day : Int) (day_names : List CString) (rnd : Nat → Nat)
    (s i : Nat) : Outcome × AllocState :=
  match sections_loop subjects working_days periods_per_day rnd day_names (List.range s)
      ⟨sections, 0, []⟩ with
  | (.completed, st) =>
    subjects_loop working_days periods_per_day rnd day_names s (subjects.take i) 0 st
  | r => r

/-! ## Inputs of the examples -/

/-- A stream of `rand()` values that starts with the given list and goes on
with zeros. -/
def stream (l : List Nat) : Nat → Nat := fun k => l.getD k 0

/-- Two subjects for which the same faculty name was entered. -/
def two_subjects_one_faculty : List Subject :=
  [⟨"Math".toList, 1, [], "Alice".toList⟩, ⟨"Phys".toList, 1, [], "Alice".toList⟩]

/-- "Math", taught by "A", two classes per week. -/
def math_two : List Subject := [⟨"Math".toList, 2, [], "A".toList⟩]

/-- Draws for two days of eleven periods: (0, 10), (1, 0) and (0, 1) while
Section A is filled, (0, 0) and (0, 2) while Section B is filled. -/
def eleven_periods_draws : Nat → Nat := stream [0, 10, 1, 0, 0, 1, 0, 0, 0, 2]

/-- One subject that is not available on Tuesdays. -/
def math_not_on_tuesday : List Subject :=
  [⟨"Math".toList, 1, ["tuesday".toList], "Alice".toList⟩]

/-- One subject that is not available on Mondays. -/
def math_not_on_monday : List Subject :=
  [⟨"Math".toList, 1, ["monday".toList], "Alice".toList⟩]

/-- The scenario of the specification: "Math", taught by "A", four classes per
week, no excluded days. -/
def math_four : List Subject := [⟨"Math".toList, 4, [], "A".toList⟩]

/-- Draws that put Math on Monday in Section A and on Tuesday in Section B. -/
def math_four_draws : Nat → Nat :=
  stream [0, 0, 0, 1, 0, 2, 0, 3, 1, 0, 1, 1, 1, 2, 1, 3]

/-- "Art" with the greatest number of classes an `int` can hold, and "Math". -/
def art_overflows : List Subject :=
  [⟨"Art".toList, 2147483647, [], "Ann".toList⟩, ⟨"Math".toList, 1, [], "Bob".toList⟩]

/-- One subject with one class per week and no excluded days. -/
def one_class : List Subject := [⟨"Math".toList, 1, [], "Alice".toList⟩]

/-- One subject that excludes all five of five working days. -/
def excludes_all_days : List Subject :=
  [⟨"Math".toList, 1, ["monday".toList, "tuesday".toList, "wednesday".toList,
    "thursday".toList, "friday".toList], "Alice".toList⟩]

/-- One subject with two classes per week, for a week of one day with one
period. -/
def two_classes_one_cell : List Subject := [⟨"Math".toList, 2, [], "Alice".toList⟩]

/-- A subject for which "monday" was entered twice as a day to exclude. -/
def monday_twice : Subject :=
  ⟨"Math".toList, 1, ["monday".toList, "monday".toList], "Alice".toList⟩

/-! ## The placement loop: unfolding and evaluation -/

theorem loop_body_cases (day_names : List CString) (sub : Subject) (i s d p : Nat)
    (st : LoopState) :
    (loop_body day_names sub i s d p st = reject st) ∨
    ((loop_body day_names sub i s d p st).remaining = st.remaining - 1 ∧
     (loop_body day_names sub i s d p st).attempts = 0) := by
  unfold loop_body
  split
  · exact Or.inl rfl
  · split
    · exact Or.inl rfl
    · split
      · exact Or.inl rfl
      · dsimp only
        split
        · exact Or.inl rfl
        · exact Or.inr ⟨rfl, rfl⟩

theorem loop_measure_decreases (day_names : List CString) (sub : Subject) (i s d p : Nat)
    (st : LoopState) (h : 0 < st.remaining ∧ st.attempts < max_attempts) :
    loop_measure (loop_body day_names sub i s d p (after_draw st)) < loop_measure st := by
  obtain ⟨hr, ha⟩ := h
  rcases loop_body_cases day_names sub i s d p (after_draw st) with h | ⟨h1, h2⟩
  · rw [h]
    simp only [loop_measure, reject, after_draw]
    omega
  · have h3 : (after_draw st).remaining = st.remaining := rfl
    unfold loop_measure
    rw [h1, h2, h3]
    have : (st.remaining - 1).toNat + 1 = st.remaining.toNat := by omega
    rw [← this]
    simp only [max_attempts] at *
    omega

theorem while_loop_eq_fuel (working_days periods_per_day : Int) (rnd : Nat → Nat)
    (day_names : List CString) (sub : Subject) (i s : Nat) :
    ∀ (n : Nat) (st : LoopState), loop_measure st ≤ n →
      while_loop working_days periods_per_day rnd day_names sub i s st =
        while_fuel working_days periods_per_day rnd day_names sub i s n st := by
  intro n
  induction n with
  | zero =>
    intro st h
    rw [while_loop, while_fuel]
    have : ¬ (0 < st.remaining ∧ st.attempts < max_attempts) := by
      simp only [loop_measure, max_attempts] at *
      omega
    rw [dif_neg this]
  | succ n ih =>
    intro st h
    rw [while_loop, while_fuel]
    by_cases hc : 0 < st.remaining ∧ st.attempts < max_attempts
    · rw [dif_pos hc, if_pos hc]
      split
      · rename_i d p _ _
        exact ih _ (by have := loop_measure_decreases day_names sub i s d p st hc; omega)
      · rfl
    · rw [dif_neg hc, if_neg hc]

theorem subjects_loop_eq_fuel (working_days periods_per_day : Int) (rnd : Nat → Nat)
    (day_names : List CString) (s : Nat) :
    ∀ (l : List Subject) (i : Nat) (st : AllocState),
      subjects_loop working_days periods_per_day rnd day_names s l i st =
        subjects_loop_fuel working_days periods_per_day rnd day_names s l i st := by
  intro l
  induction l with
  | nil => intro i st; rfl
  | cons sub rest ih =>
    intro i st
    rw [subjects_loop, subjects_loop_fuel,
      while_loop_eq_fuel _ _ _ _ _ _ _ _ _ (le_refl _)]
    split
    · rfl
    · split
      · rfl
      · exact ih _ _

theorem sections_loop_eq_fuel (subjects : List Subject) (working_days periods_per_day : Int)
    (rnd : Nat → Nat) (day_names : List CString) :
    ∀ (l : List Nat) (st : AllocState),
      sections_loop subjects working_days periods_per_day rnd day_names l st =
        sections_loop_fuel subjects working_days periods_per_day rnd day_names l st := by
  intro l
  induction l with
  | nil => intro st; rfl
  | cons s rest ih =>
    intro st
    rw [sections_loop, sections_loop_fuel, subjects_loop_eq_fuel]
    split
    · exact ih _
    · rfl

theorem distribute_subjects_eq_fuel (subjects : List Subject) (sections : Nat → Section)
    (working_days periods_per_day : Int) (day_names : List CString) (rnd : Nat → Nat) :
    distribute_subjects subjects sections working_days periods_per_day day_names rnd =
      distribute_fuel subjects sections working_days periods_per_day day_names rnd := by
  rw [distribute_subjects, distribute_fuel, sections_loop_eq_fuel]

/-! ## Strings -/

theorem strstr_found_iff (h n : CString) : strstr_found h n = true ↔ n <:+: h := by
  induction h with
  | nil =>
    cases n with
    | nil => simp [strstr_found]
    | cons a t => simp [strstr_found]
  | cons c rest ih =>
    rw [strstr_found, Bool.or_eq_true, ih, List.isPrefixOf_iff_prefix, List.infix_cons_iff]

theorem day_constrained_iff (cs : List CString) (lowday : CString) :
    day_constrained cs lowday = true ↔ lowday ∈ cs := by
  induction cs with
  | nil => simp [day_constrained]
  | cons c rest ih =>
    rw [day_constrained]
    by_cases h : c = lowday
    · simp [h]
    · rw [if_neg h, ih]
      simp [Ne.symm h]

theorem format_entry_ne_free (sub : Subject) : format_entry sub ≠ FREE := by
  intro h
  have hlen : (format_entry sub).length = 4 := by rw [h]; decide
  unfold format_entry at hlen
  rw [List.length_take] at hlen
  simp only [List.length_append, List.length_cons, MAX_NAME_LENGTH] at hlen
  have hmem : '(' ∈ format_entry sub := by
    rw [format_entry, List.take_of_length_le]
    · simp
    · simp only [List.length_append, List.length_cons, MAX_NAME_LENGTH]
      omega
  rw [h] at hmem
  revert hmem
  decide

theorem loop_body_of_accepts (day_names : List CString) (sub : Subject) (i s d p : Nat)
    (st : LoopState) (h : accepts day_names sub s d p st.alloc.sections) :
    loop_body day_names sub i s d p st =
      { remaining := st.remaining - 1
        attempts := 0
        alloc :=
          { sections := write_cell st.alloc.sections s d p (format_entry sub)
            rand_calls := st.alloc.rand_calls
            written := ⟨s, i, d, p⟩ :: st.alloc.written } } := by
  obtain ⟨h1, h2, h3, h4⟩ := h
  simp only [loop_body, h1, h2, h3, h4, ne_eq, not_true_eq_false, Bool.not_true,
    Bool.false_eq_true, if_false]

theorem loop_body_of_not_accepts (day_names : List CString) (sub : Subject) (i s d p : Nat)
    (st : LoopState) (h : ¬ accepts day_names sub s d p st.alloc.sections) :
    loop_body day_names sub i s d p st = reject st := by
  unfold loop_body
  split
  · rfl
  · split
    · rfl
    · split
      · rfl
      · dsimp only
        split
        · rfl
        · exfalso
          apply h
          refine ⟨?_, ?_, ?_, ?_⟩
          · rename_i h1 _ _ _
            exact not_not.1 h1
          · rename_i _ h2 _ _
            simpa using h2
          · rename_i _ _ h3 _
            simpa using h3
          · rename_i _ _ _ h4
            simpa using h4

/-! ## Invariants of the loops -/

theorem while_fuel_invariant (working_days periods_per_day : Int) (rnd : Nat → Nat)
    (day_names : List CString) (sub : Subject) (i s : Nat) (J : LoopState → Prop)
    (hstep : ∀ d p st, 0 < st.remaining → st.attempts < max_attempts →
      rand_mod (rnd st.alloc.rand_calls) working_days = some d →
      rand_mod (rnd (st.alloc.rand_calls + 1)) periods_per_day = some p → J st →
      J (loop_body day_names sub i s d p (after_draw st))) :
    ∀ (n : Nat) (st : LoopState), J st → ∀ r,
      (while_fuel working_days periods_per_day rnd day_names sub i s n st = .ok r ∨
       while_fuel working_days periods_per_day rnd day_names sub i s n st = .error r) →
      J r := by
  intro n
  induction n with
  | zero =>
    intro st h0 r hr
    rw [while_fuel] at hr
    rcases hr with hr | hr
    · cases hr; exact h0
    · cases hr
  | succ n ih =>
    intro st h0 r hr
    rw [while_fuel] at hr
    by_cases hc : 0 < st.remaining ∧ st.attempts < max_attempts
    · rw [if_pos hc] at hr
      split at hr
      · rename_i d p hd hp
        exact ih _ (hstep d p st hc.1 hc.2 hd hp h0) r hr
      · rcases hr with hr | hr
        · cases hr
        · cases hr; exact h0
    · rw [if_neg hc] at hr
      rcases hr with hr | hr
      · cases hr; exact h0
      · cases hr

theorem while_loop_invariant (working_days periods_per_day : Int) (rnd : Nat → Nat)
    (day_names : List CString) (sub : Subject) (i s : Nat) (J : LoopState → Prop)
    (hstep : ∀ d p st, 0 < st.remaining → st.attempts < max_attempts →
      rand_mod (rnd st.alloc.rand_calls) working_days = some d →
      rand_mod (rnd (st.alloc.rand_calls + 1)) periods_per_day = some p → J st →
      J (loop_body day_names sub i s d p (after_draw st)))
    (st : LoopState) (h0 : J st) (r : LoopState)
    (hr : while_loop working_days periods_per_day rnd day_names sub i s st = .ok r ∨
          while_loop working_days periods_per_day rnd day_names sub i s st = .error r) :
    J r := by
  rw [while_loop_eq_fuel _ _ _ _ _ _ _ _ _ (le_refl _)] at hr
  exact while_fuel_invariant working_days periods_per_day rnd day_names sub i s J hstep _ st h0 r hr

theorem while_loop_exit (working_days periods_per_day : Int) (rnd : Nat → Nat)
    (day_names : List CString) (sub : Subject) (i s : Nat) :
    ∀ (n : Nat) (st : LoopState), loop_measure st ≤ n → ∀ r,
      while_loop working_days periods_per_day rnd day_names sub i s st = .ok r →
      ¬ (0 < r.remaining ∧ r.attempts < max_attempts) := by
  intro n
  induction n with
  | zero =>
    intro st hm r hr
    rw [while_loop] at hr
    have hc : ¬ (0 < st.remaining ∧ st.attempts < max_attempts) := by
      simp only [loop_measure, max_attempts] at *
      omega
    rw [dif_neg hc] at hr
    cases hr
    exact hc
  | succ n ih =>
    intro st hm r hr
    rw [while_loop] at hr
    by_cases hc : 0 < st.remaining ∧ st.attempts < max_attempts
    · rw [dif_pos hc] at hr
      split at hr
      · rename_i d p _ _
        exact ih _ (by have := loop_measure_decreases day_names sub i s d p st hc; omega) r hr
      · cases hr
    · rw [dif_neg hc] at hr
      cases hr
      exact hc

theorem while_loop_preserves (working_days periods_per_day : Int) (rnd : Nat → Nat)
    (day_names : List CString) (sub : Subject) (i s : Nat)
    (I : (Nat → Section) → List Placement → Prop)
    (hstep : ∀ d p secs w, (∃ r, rand_mod r working_days = some d) →
      (∃ r, rand_mod r periods_per_day = some p) →
      I secs w → accepts day_names sub s d p secs →
      I (write_cell secs s d p (format_entry sub)) (⟨s, i, d, p⟩ :: w))
    (st : LoopState) (h0 : I st.alloc.sections st.alloc.written) (r : LoopState)
    (hr : while_loop working_days periods_per_day rnd day_names sub i s st = .ok r ∨
          while_loop working_days periods_per_day rnd day_names sub i s st = .error r) :
    I r.alloc.sections r.alloc.written := by
  refine while_loop_invariant working_days periods_per_day rnd day_names sub i s
    (fun st => I st.alloc.sections st.alloc.written) ?_ st h0 r hr
  intro d p st _ _ hd hp hJ
  by_cases ha : accepts day_names sub s d p (after_draw st).alloc.sections
  · rw [loop_body_of_accepts _ _ _ _ _ _ _ ha]
    exact hstep d p _ _ ⟨_, hd⟩ ⟨_, hp⟩ hJ ha
  · rw [loop_body_of_not_accepts _ _ _ _ _ _ _ ha]
    exact hJ

theorem subjects_loop_preserves (subjects : List Subject) (working_days periods_per_day : Int)
    (rnd : Nat → Nat) (day_names : List CString)
    (I : (Nat → Section) → List Placement → Prop)
    (hI : Preserved subjects working_days periods_per_day day_names I) (s : Nat) (hs : s < MAX_SECTIONS) :
    ∀ (l : List Subject) (i : Nat) (st : AllocState),
      (∀ k sub, l[k]? = some sub → subjects[i + k]? = some sub) →
      I st.sections st.written →
      I (subjects_loop working_days periods_per_day rnd day_names s l i st).2.sections
        (subjects_loop working_days periods_per_day rnd day_names s l i st).2.written := by
  intro l
  induction l with
  | nil => intro i st _ h0; exact h0
  | cons sub rest ih =>
    intro i st hl h0
    have hsub : subjects[i]? = some sub := hl 0 sub (by simp)
    have hw := while_loop_preserves working_days periods_per_day rnd day_names sub i s I
      (hI s hs i sub hsub) ⟨sub.classes_per_week, 0, st⟩ h0
    rw [subjects_loop]
    split
    · rename_i st' heq
      exact hw st' (Or.inr heq)
    · rename_i st' heq
      split
      · exact hw st' (Or.inl heq)
      · refine ih (i + 1) _ ?_ (hw st' (Or.inl heq))
        intro k sub' hk
        have := hl (k + 1) sub' (by simpa using hk)
        rw [← this]
        congr 1
        omega

theorem sections_loop_preserves (subjects : List Subject) (working_days periods_per_day : Int)
    (rnd : Nat → Nat) (day_names : List CString)
    (I : (Nat → Section) → List Placement → Prop)
    (hI : Preserved subjects working_days periods_per_day day_names I) :
    ∀ (ls : List Nat) (st : AllocState), (∀ s ∈ ls, s < MAX_SECTIONS) →
      I st.sections st.written →
      I (sections_loop subjects working_days periods_per_day rnd day_names ls st).2.sections
        (sections_loop subjects working_days periods_per_day rnd day_names ls st).2.written := by
  intro ls
  induction ls with
  | nil => intro st _ h0; exact h0
  | cons s rest ih =>
    intro st hls h0
    have hsl := subjects_loop_preserves subjects working_days periods_per_day rnd day_names I hI
      s (hls s (List.mem_cons_self _ _)) subjects 0 st (by intro k sub hk; simpa using hk) h0
    rw [sections_loop]
    split
    · rename_i st' heq
      rw [heq] at hsl
      exact ih st' (fun s' hs' => hls s' (List.mem_cons_of_mem _ hs')) hsl
    · exact hsl

theorem distribute_subjects_preserves (subjects : List Subject) (sections : Nat → Section)
    (working_days periods_per_day : Int) (day_names : List CString) (rnd : Nat → Nat)
    (I : (Nat → Section) → List Placement → Prop)
    (hI : Preserved subjects working_days periods_per_day day_names I) (h0 : I sections []) :
    I (distribute_subjects subjects sections working_days periods_per_day day_names rnd).2.sections
      (distribute_subjects subjects sections working_days periods_per_day day_names
        rnd).2.written := by
  unfold distribute_subjects
  exact sections_loop_preserves subjects working_days periods_per_day rnd day_names I hI _ _
    (fun s hs => List.mem_range.1 hs) h0

/-! ## The record of assignments and the timetables -/

theorem string_at_set_string (secs : Nat → Section) (g : Nat) (x : CString) (g' : Nat) :
    string_at (set_string secs g x) g' = if g' = g then x else string_at secs g' := by
  unfold string_at set_string
  simp only [SECTION_STRINGS, MAX_DAYS, MAX_PERIODS]
  by_cases h : g' = g
  · subst h
    rw [if_pos rfl, if_pos rfl]
    split
    · rfl
    · simp
  · rw [if_neg h]
    by_cases hs : g' / (7 * 10 + 1) = g / (7 * 10 + 1)
    · rw [if_pos hs]
      by_cases hg : g % (7 * 10 + 1) = 7 * 10
      · rw [if_pos hg]
        have : ¬ g' % (7 * 10 + 1) = 7 * 10 := by omega
        rw [if_neg this, if_neg this]
      · rw [if_neg hg]
        by_cases hg' : g' % (7 * 10 + 1) = 7 * 10
        · rw [if_pos hg', if_pos hg']
        · rw [if_neg hg', if_neg hg']
          have : ¬ (g' % (7 * 10 + 1) / 10 = g % (7 * 10 + 1) / 10 ∧
              g' % (7 * 10 + 1) % 10 = g % (7 * 10 + 1) % 10) := by omega
          simp only [this, if_false]
    · rw [if_neg hs]

theorem read_cell_write_cell (secs : Nat → Section) (s d p : Nat) (x : CString)
    (s' d' p' : Nat) :
    read_cell (write_cell secs s d p x) s' d' p' =
      if string_index s' d' p' = string_index s d p then x else read_cell secs s' d' p' :=
  string_at_set_string secs _ x _

theorem write_cell_same (secs : Nat → Section) (s d p : Nat) (x : CString) :
    read_cell (write_cell secs s d p x) s d p = x := by
  rw [read_cell_write_cell, if_pos rfl]

theorem write_cell_other (secs : Nat → Section) (s d p : Nat) (x : CString) (s' d' p' : Nat)
    (h : string_index s' d' p' ≠ string_index s d p) :
    read_cell (write_cell secs s d p x) s' d' p' = read_cell secs s' d' p' := by
  rw [read_cell_write_cell, if_neg h]

theorem read_cell_in_bounds (secs : Nat → Section) (s d p : Nat)
    (hd : d < MAX_DAYS) (hp : p < MAX_PERIODS) :
    read_cell secs s d p = (secs s).timetable d p := by
  unfold read_cell string_at string_index
  simp only [SECTION_STRINGS, MAX_DAYS, MAX_PERIODS] at *
  have h1 : (s * (7 * 10 + 1) + d * 10 + p) % (7 * 10 + 1) = d * 10 + p := by omega
  have h2 : (s * (7 * 10 + 1) + d * 10 + p) / (7 * 10 + 1) = s := by omega
  have h3 : (d * 10 + p) / 10 = d := by omega
  have h4 : (d * 10 + p) % 10 = p := by omega
  rw [h1, h2, h3, h4, if_neg (by omega)]

theorem string_index_inj (s d p s' d' p' : Nat) (hd : d < MAX_DAYS) (hp : p < MAX_PERIODS)
    (hd' : d' < MAX_DAYS) (hp' : p' < MAX_PERIODS)
    (h : string_index s d p = string_index s' d' p') : s = s' ∧ d = d' ∧ p = p' := by
  unfold string_index at h
  simp only [SECTION_STRINGS, MAX_DAYS, MAX_PERIODS] at *
  have hs : s = s' := by
    rcases Nat.lt_trichotomy s s' with h' | h' | h'
    · omega
    · exact h'
    · omega
  subst hs
  have hdd : d = d' := by
    rcases Nat.lt_trichotomy d d' with h' | h' | h'
    · omega
    · exact h'
    · omega
  subst hdd
  exact ⟨rfl, rfl, by omega⟩

theorem consistent_preserved (subjects : List Subject) (working_days periods_per_day : Int)
    (day_names : List CString) :
    Preserved subjects working_days periods_per_day day_names (Consistent subjects) := by
  intro s hs i sub hsub d p secs w _ _ hI hacc
  obtain ⟨hcells, hnodup⟩ := hI
  have hfree : read_cell secs s d p = FREE := hacc.1
  have hfresh : ∀ e ∈ w, string_index e.sec e.day e.period ≠ string_index s d p := by
    intro e he heq
    obtain ⟨_, sub', _, hcell⟩ := hcells e he
    unfold read_cell at hcell hfree
    rw [heq, hfree] at hcell
    exact format_entry_ne_free sub' hcell.symm
  refine ⟨?_, ?_⟩
  · intro e he
    rcases List.mem_cons.1 he with rfl | he
    · exact ⟨hs, sub, hsub, write_cell_same _ _ _ _ _⟩
    · obtain ⟨h1, sub', h2, h3⟩ := hcells e he
      refine ⟨h1, sub', h2, ?_⟩
      rw [write_cell_other _ _ _ _ _ _ _ _ (hfresh e he)]
      exact h3
  · rw [List.map_cons, List.nodup_cons]
    refine ⟨?_, hnodup⟩
    intro hmem
    obtain ⟨e, he, heq⟩ := List.mem_map.1 hmem
    exact hfresh e he heq

theorem no_excluded_day_preserved (subjects : List Subject)
    (working_days periods_per_day : Int) (day_names : List CString) :
    Preserved subjects working_days periods_per_day day_names
      (fun _ w => NoExcludedDay subjects day_names w) := by
  intro s _ i sub hsub d p secs w _ _ hI hacc e he sub' hsub'
  rcases List.mem_cons.1 he with rfl | he
  · simp only at hsub'
    rw [hsub] at hsub'
    cases hsub'
    intro hmem
    have := (day_constrained_iff sub.constraints _).2 hmem
    rw [hacc.2.2.2] at this
    cases this
  · exact hI e he sub' hsub'

theorem rand_mod_lt (r : Nat) (m : Int) (d : Nat) (h : rand_mod r m = some d) (hm : 0 < m) :
    (d : Int) < m := by
  unfold rand_mod at h
  rw [if_neg (by omega)] at h
  cases h
  have h1 : 0 ≤ Int.tmod r m := Int.tmod_nonneg _ (Int.ofNat_nonneg r)
  have h2 : Int.tmod r m < m := Int.tmod_lt_of_pos _ hm
  rw [Int.toNat_of_nonneg h1]
  exact h2

theorem rand_mod_lt_natAbs (r : Nat) (m : Int) (d : Nat) (h : rand_mod r m = some d) :
    d < m.natAbs := by
  unfold rand_mod at h
  by_cases hm : m = 0
  · rw [if_pos hm] at h
    cases h
  · rw [if_neg hm] at h
    cases h
    have h1 : 0 ≤ Int.tmod r m := Int.tmod_nonneg _ (Int.ofNat_nonneg r)
    have h2 : Int.tmod r m < (m.natAbs : Int) := by
      rcases Int.lt_or_gt_of_ne hm with hneg | hpos
      · have := Int.tmod_lt_of_pos (r : Int) (show 0 < -m by omega)
        rw [Int.tmod_neg] at this
        omega
      · have := Int.tmod_lt_of_pos (r : Int) hpos
        omega
    omega

theorem in_range_preserved (subjects : List Subject)
    (working_days periods_per_day : Int) (day_names : List CString) :
    Preserved subjects working_days periods_per_day day_names
      (fun _ w => InRange working_days periods_per_day w) := by
  intro s _ i sub _ d p secs w hd hp hI _ e he
  rcases List.mem_cons.1 he with rfl | he
  · obtain ⟨r₁, hr₁⟩ := hd
    obtain ⟨r₂, hr₂⟩ := hp
    exact ⟨rand_mod_lt_natAbs r₁ _ _ hr₁, rand_mod_lt_natAbs r₂ _ _ hr₂⟩
  · exact hI e he

theorem initial_or_written_preserved (subjects : List Subject)
    (working_days periods_per_day : Int) (day_names : List CString) (init : Nat → Section) :
    Preserved subjects working_days periods_per_day day_names (InitialOrWritten init) := by
  intro s _ i sub _ d p secs w _ _ hI _ g
  by_cases h : g = string_index s d p
  · exact Or.inr ⟨⟨s, i, d, p⟩, List.mem_cons_self _ _, h.symm⟩
  · unfold write_cell
    rw [string_at_set_string, if_neg h]
    rcases hI g with h' | ⟨e, he, h'⟩
    · exact Or.inl h'
    · exact Or.inr ⟨e, List.mem_cons_of_mem _ he, h'⟩

/-! ## The timetables within the bounds of the arrays -/

theorem distribute_subjects_faithful (subjects : List Subject) (sections : Nat → Section)
    (working_days periods_per_day : Int) (day_names : List CString) (rnd : Nat → Nat)
    (hwd : working_days.natAbs ≤ MAX_DAYS) (hppd : periods_per_day.natAbs ≤ MAX_PERIODS) :
    (∀ e ∈ (distribute_subjects subjects sections working_days periods_per_day day_names
        rnd).2.written,
      e.sec < MAX_SECTIONS ∧ e.day < MAX_DAYS ∧ e.period < MAX_PERIODS ∧
      ∃ sub, subjects[e.subject]? = some sub ∧
        ((distribute_subjects subjects sections working_days periods_per_day day_names
          rnd).2.sections e.sec).timetable e.day e.period = format_entry sub) ∧
    ((distribute_subjects subjects sections working_days periods_per_day day_names
      rnd).2.written.map fun e => (e.sec, e.day, e.period)).Nodup ∧
    (∀ s d p, d < MAX_DAYS → p < MAX_PERIODS →
      ((distribute_subjects subjects sections working_days periods_per_day day_names
        rnd).2.sections s).timetable d p = (sections s).timetable d p ∨
      ∃ i, (⟨s, i, d, p⟩ : Placement) ∈ (distribute_subjects subjects sections working_days
        periods_per_day day_names rnd).2.written) := by
  have hcons := distribute_subjects_preserves subjects sections working_days periods_per_day
    day_names rnd _ (consistent_preserved subjects working_days periods_per_day day_names)
    ⟨fun e he => absurd he (List.not_mem_nil e), List.nodup_nil⟩
  have hrange := distribute_subjects_preserves subjects sections working_days periods_per_day
    day_names rnd _ (in_range_preserved subjects working_days periods_per_day day_names)
    (fun e he => absurd he (List.not_mem_nil e))
  have hinit := distribute_subjects_preserves subjects sections working_days periods_per_day
    day_names rnd _ (initial_or_written_preserved subjects working_days periods_per_day
      day_names sections) (fun _ => Or.inl rfl)
  have hin : ∀ e ∈ (distribute_subjects subjects sections working_days periods_per_day
      day_names rnd).2.written, e.day < MAX_DAYS ∧ e.period < MAX_PERIODS := by
    intro e he
    have := hrange e he
    exact ⟨by omega, by omega⟩
  refine ⟨?_, ?_, ?_⟩
  · intro e he
    obtain ⟨h1, sub, h2, h3⟩ := hcons.1 e he
    rw [read_cell_in_bounds _ _ _ _ (hin e he).1 (hin e he).2] at h3
    exact ⟨h1, (hin e he).1, (hin e he).2, sub, h2, h3⟩
  · have h := hcons.2
    have hmap : ((distribute_subjects subjects sections working_days periods_per_day
        day_names rnd).2.written.map fun e => string_index e.sec e.day e.period) =
        ((distribute_subjects subjects sections working_days periods_per_day
          day_names rnd).2.written.map fun e => (e.sec, e.day, e.period)).map
            fun c => string_index c.1 c.2.1 c.2.2 := by
      rw [List.map_map]
      rfl
    rw [hmap] at h
    exact h.of_map _
  · intro s d p hd hp
    rcases hinit (string_index s d p) with h | ⟨e, he, h⟩
    · left
      have h' : read_cell (distribute_subjects subjects sections working_days periods_per_day
          day_names rnd).2.sections s d p = read_cell sections s d p := h
      rw [read_cell_in_bounds _ _ _ _ hd hp, read_cell_in_bounds _ _ _ _ hd hp] at h'
      exact h'
    · right
      obtain ⟨h1, h2, h3⟩ := string_index_inj _ _ _ _ _ _ (hin e he).1 (hin e he).2 hd hp h
      refine ⟨e.subject, ?_⟩
      rw [← h1, ← h2, ← h3]
      exact he

/-! ## Counting the assignments -/

theorem cells_of_cons (e : Placement) (w : List Placement) (s i : Nat) :
    cells_of (e :: w) s i =
      if e.sec = s ∧ e.subject = i then (e.day, e.period) :: cells_of w s i
      else cells_of w s i := by
  unfold cells_of
  by_cases h : e.sec = s ∧ e.subject = i
  · rw [if_pos h, List.filter_cons_of_pos (by simpa using h), List.map_cons]
  · rw [if_neg h, List.filter_cons_of_neg (by simpa using h)]

theorem while_loop_count (working_days periods_per_day : Int) (rnd : Nat → Nat)
    (day_names : List CString) (sub : Subject) (i s : Nat) (a : AllocState) (r : LoopState)
    (hr : while_loop working_days periods_per_day rnd day_names sub i s
      ⟨sub.classes_per_week, 0, a⟩ = .ok r)
    (hdone : ¬ 0 < r.remaining) :
    (∀ s' j, (s' ≠ s ∨ j ≠ i) → cells_of r.alloc.written s' j = cells_of a.written s' j) ∧
    (cells_of r.alloc.written s i).length =
      (cells_of a.written s i).length + sub.classes_per_week.toNat := by
  have hJ := while_loop_invariant working_days periods_per_day rnd day_names sub i s
    (fun st => ∃ k : Nat, k ≤ sub.classes_per_week.toNat ∧
      st.remaining = sub.classes_per_week - k ∧
      (∀ s' j, (s' ≠ s ∨ j ≠ i) → cells_of st.alloc.written s' j = cells_of a.written s' j) ∧
      (cells_of st.alloc.written s i).length = (cells_of a.written s i).length + k)
    ?_ ⟨sub.classes_per_week, 0, a⟩ ⟨0, by omega, by simp, fun _ _ _ => rfl, rfl⟩ r (Or.inl hr)
  · obtain ⟨k, hk, hrem, hother, hcount⟩ := hJ
    refine ⟨hother, ?_⟩
    rw [hcount]
    omega
  · intro d p st hpos _ _ _ hJ
    obtain ⟨k, hk, hrem, hother, hcount⟩ := hJ
    by_cases ha : accepts day_names sub s d p (after_draw st).alloc.sections
    · rw [loop_body_of_accepts _ _ _ _ _ _ _ ha]
      refine ⟨k + 1, by omega, ?_, ?_, ?_⟩
      · show (after_draw st).remaining - 1 = sub.classes_per_week - ((k + 1 : Nat) : Int)
        have : (after_draw st).remaining = st.remaining := rfl
        rw [this, hrem]
        push_cast
        omega
      · intro s' j hne
        show cells_of (⟨s, i, d, p⟩ :: st.alloc.written) s' j = _
        rw [cells_of_cons, if_neg, hother s' j hne]
        rintro ⟨h1, h2⟩
        rcases hne with h | h
        · exact h h1.symm
        · exact h h2.symm
      · show (cells_of (⟨s, i, d, p⟩ :: st.alloc.written) s i).length = _
        rw [cells_of_cons, if_pos ⟨rfl, rfl⟩, List.length_cons, hcount]
        omega
    · rw [loop_body_of_not_accepts _ _ _ _ _ _ _ ha]
      exact ⟨k, hk, hrem, hother, hcount⟩

theorem subjects_loop_count (working_days periods_per_day : Int) (rnd : Nat → Nat)
    (day_names : List CString) (s : Nat) :
    ∀ (l : List Subject) (i : Nat) (a b : AllocState),
      subjects_loop working_days periods_per_day rnd day_names s l i a = (.completed, b) →
      (∀ s' j, (s' ≠ s ∨ j < i ∨ i + l.length ≤ j) →
        cells_of b.written s' j = cells_of a.written s' j) ∧
      (∀ k sub, l[k]? = some sub →
        (cells_of b.written s (i + k)).length =
          (cells_of a.written s (i + k)).length + sub.classes_per_week.toNat) := by
  intro l
  induction l with
  | nil =>
    intro i a b h
    rw [subjects_loop] at h
    cases h
    exact ⟨fun _ _ _ => rfl, fun k sub hk => by simp at hk⟩
  | cons sub rest ih =>
    intro i a b h
    rw [subjects_loop] at h
    split at h
    · cases h
    · rename_i st' heq
      split at h
      · cases h
      · rename_i hdone
        obtain ⟨hother, hcount⟩ := while_loop_count working_days periods_per_day rnd
          day_names sub i s a st' heq hdone
        obtain ⟨ihother, ihcount⟩ := ih (i + 1) st'.alloc b h
        refine ⟨?_, ?_⟩
        · intro s' j hne
          rw [ihother s' j (by simp only [List.length_cons] at hne; omega),
            hother s' j (by simp only [List.length_cons] at hne; omega)]
        · intro k sub' hk
          cases k with
          | zero =>
            simp only [List.getElem?_cons_zero, Option.some.injEq] at hk
            subst hk
            rw [Nat.add_zero, ihother s i (by omega), hcount]
          | succ k =>
            simp only [List.getElem?_cons_succ] at hk
            have := ihcount k sub' hk
            rw [show i + (k + 1) = i + 1 + k by omega, this,
              hother s (i + 1 + k) (by omega)]

theorem sections_loop_count (subjects : List Subject) (working_days periods_per_day : Int)
    (rnd : Nat → Nat) (day_names : List CString) :
    ∀ (ls : List Nat) (a b : AllocState), ls.Nodup →
      sections_loop subjects working_days periods_per_day rnd day_names ls a =
        (.completed, b) →
      (∀ s', s' ∉ ls → ∀ j, cells_of b.written s' j = cells_of a.written s' j) ∧
      (∀ s ∈ ls, ∀ j sub, subjects[j]? = some sub →
        (cells_of b.written s j).length =
          (cells_of a.written s j).length + sub.classes_per_week.toNat) := by
  intro ls
  induction ls with
  | nil =>
    intro a b _ h
    rw [sections_loop] at h
    cases h
    exact ⟨fun _ _ _ => rfl, fun s hs => absurd hs (List.not_mem_nil s)⟩
  | cons s rest ih =>
    intro a b hnd h
    rw [sections_loop] at h
    obtain ⟨hs, hnd'⟩ := List.nodup_cons.1 hnd
    split at h
    · rename_i st' heq
      obtain ⟨hother, hcount⟩ := subjects_loop_count working_days periods_per_day rnd
        day_names s subjects 0 a st' heq
      obtain ⟨ihother, ihcount⟩ := ih st' b hnd' h
      refine ⟨?_, ?_⟩
      · intro s' hs' j
        have h1 : s' ≠ s := fun h => hs' (h ▸ List.mem_cons_self _ _)
        have h2 : s' ∉ rest := fun h => hs' (List.mem_cons_of_mem _ h)
        rw [ihother s' h2 j, hother s' j (Or.inl h1)]
      · intro s' hs' j sub hsub
        rcases List.mem_cons.1 hs' with rfl | hs'
        · have := hcount j sub hsub
          rw [Nat.zero_add] at this
          rw [ihother s' hs j, this]
        · have hne : s' ≠ s := fun h => hs (h ▸ hs')
          rw [ihcount s' hs' j sub hsub, hother s' j (Or.inl hne)]
    · rename_i hnot
      have hc : (subjects_loop working_days periods_per_day rnd day_names s subjects 0 a).1 =
          .completed := by rw [h]
      exact absurd (Prod.ext hc rfl : subjects_loop working_days periods_per_day rnd day_names
        s subjects 0 a = (.completed, (subjects_loop working_days periods_per_day rnd
          day_names s subjects 0 a).2)) (hnot _)

theorem distribute_subjects_count (subjects : List Subject) (sections : Nat → Section)
    (working_days periods_per_day : Int) (day_names : List CString) (rnd : Nat → Nat)
    (hdone : (distribute_subjects subjects sections working_days periods_per_day day_names
      rnd).1 = .completed)
    (s : Nat) (hs : s < MAX_SECTIONS) (i : Nat) (sub : Subject)
    (hsub : subjects[i]? = some sub) :
    (cells_of (distribute_subjects subjects sections working_days periods_per_day day_names
      rnd).2.written s i).length = sub.classes_per_week.toNat := by
  have h := (sections_loop_count subjects working_days periods_per_day rnd day_names
    (List.range MAX_SECTIONS) ⟨sections, 0, []⟩
    (distribute_subjects subjects sections working_days periods_per_day day_names rnd).2
    (List.nodup_range _) (Prod.ext hdone rfl)).2 s (List.mem_range.2 hs) i sub hsub
  rw [h]
  simp [cells_of]

/-! ## The clash and excluded-day properties of the allocation -/

/-- C1, evaluated on an input with the same faculty name entered for two
subjects (one working day, two periods): the feasibility checks pass, the
allocation completes, and period 2 of the day holds "Phys(A)" in Section A and
"Math(A)" in Section B, both taught by "Alice". The availability check searches
the cell for the whole faculty name, while the cell stores only its initial. -/
theorem same_faculty_in_both_sections :
    feasibility_check two_subjects_one_faculty 1 2 = none ∧
    (distribute_subjects two_subjects_one_faculty (init_sections 1 2) 1 2 main_day_names
      (stream [0, 0, 0, 1, 0, 1, 0, 0])).1 = Outcome.completed ∧
    (⟨0, 1, 0, 1⟩ : Placement) ∈ (distribute_subjects two_subjects_one_faculty
      (init_sections 1 2) 1 2 main_day_names (stream [0, 0, 0, 1, 0, 1, 0, 0])).2.written ∧
    (⟨1, 0, 0, 1⟩ : Placement) ∈ (distribute_subjects two_subjects_one_faculty
      (init_sections 1 2) 1 2 main_day_names (stream [0, 0, 0, 1, 0, 1, 0, 0])).2.written ∧
    (((distribute_subjects two_subjects_one_faculty (init_sections 1 2) 1 2 main_day_names
      (stream [0, 0, 0, 1, 0, 1, 0, 0])).2.sections 0).timetable 0 1 = "Phys(A)".toList) ∧
    (((distribute_subjects two_subjects_one_faculty (init_sections 1 2) 1 2 main_day_names
      (stream [0, 0, 0, 1, 0, 1, 0, 0])).2.sections 1).timetable 0 1 = "Math(A)".toList) ∧
    (two_subjects_one_faculty[0]?).map Subject.faculty = some "Alice".toList ∧
    (two_subjects_one_faculty[1]?).map Subject.faculty = some "Alice".toList ∧
    "Alice".toList ≠ UNASSIGNED := by
  rw [distribute_subjects_eq_fuel]
  decide

/-- C3 fails with eleven periods per day, which `main` accepts: Math excludes
"tuesday", the draw of Monday, period 11 is kept, and `timetable[0][10]` is the
memory of `timetable[1][0]`, so that the first period of Tuesday in Section A
holds the record of Math when the run ends. -/
theorem excluded_tuesday_holds_math :
    feasibility_check math_not_on_tuesday 2 11 = none ∧
    (2 : Int) ≤ 7 ∧
    (∀ sub ∈ math_not_on_tuesday, ∀ c ∈ sub.constraints, to_lower_case c = c) ∧
    (distribute_subjects math_not_on_tuesday (init_sections 2 11) 2 11 main_day_names
      (stream [0, 10, 0, 0])).1 = Outcome.completed ∧
    (distribute_subjects math_not_on_tuesday (init_sections 2 11) 2 11 main_day_names
      (stream [0, 10, 0, 0])).2.written = [⟨1, 0, 0, 0⟩, ⟨0, 0, 0, 10⟩] ∧
    ((distribute_subjects math_not_on_tuesday (init_sections 2 11) 2 11 main_day_names
      (stream [0, 10, 0, 0])).2.sections 0).timetable 1 0 = "Math(A)".toList ∧
    (math_not_on_tuesday[0]?).map Subject.constraints = some ["tuesday".toList] ∧
    to_lower_case (main_day_names.getD 1 []) ∈ ["tuesday".toList] := by
  rw [distribute_subjects_eq_fuel]
  decide

/-- C3 as amended: when `working_days` is between -7 and 7 and `periods_per_day`
between -10 and 10, so that every draw stays within the arrays, every assignment
that `distribute_subjects` makes, on a completed run or not, is to a cell of the
timetable on a day whose lower-cased name is not among the constraints of its
subject; and every cell of a timetable that does not hold what it held before
the run holds the record of such an assignment to that very cell. -/
theorem never_on_excluded_day (subjects : List Subject) (sections : Nat → Section)
    (working_days periods_per_day : Int) (day_names : List CString) (rnd : Nat → Nat)
    (hwd : working_days.natAbs ≤ MAX_DAYS) (hppd : periods_per_day.natAbs ≤ MAX_PERIODS) :
    (∀ e ∈ (distribute_subjects subjects sections working_days periods_per_day day_names
        rnd).2.written,
      e.day < MAX_DAYS ∧ e.period < MAX_PERIODS ∧
      ∃ sub, subjects[e.subject]? = some sub ∧
        ((distribute_subjects subjects sections working_days periods_per_day day_names
          rnd).2.sections e.sec).timetable e.day e.period = format_entry sub ∧
        to_lower_case (day_names.getD e.day []) ∉ sub.constraints) ∧
    (∀ s d p, d < MAX_DAYS → p < MAX_PERIODS →
      ((distribute_subjects subjects sections working_days periods_per_day day_names
        rnd).2.sections s).timetable d p ≠ (sections s).timetable d p →
      ∃ i sub, subjects[i]? = some sub ∧
        (⟨s, i, d, p⟩ : Placement) ∈ (distribute_subjects subjects sections working_days
          periods_per_day day_names rnd).2.written ∧
        ((distribute_subjects subjects sections working_days periods_per_day day_names
          rnd).2.sections s).timetable d p = format_entry sub ∧
        to_lower_case (day_names.getD d []) ∉ sub.constraints) := by
  obtain ⟨hcells, _, hgrid⟩ := distribute_subjects_faithful subjects sections working_days
    periods_per_day day_names rnd hwd hppd
  have hday := distribute_subjects_preserves subjects sections working_days periods_per_day
    day_names rnd _ (no_excluded_day_preserved subjects working_days periods_per_day day_names)
    (fun e he => absurd he (List.not_mem_nil e))
  refine ⟨?_, ?_⟩
  · intro e he
    obtain ⟨_, h1, h2, sub, h3, h4⟩ := hcells e he
    exact ⟨h1, h2, sub, h3, h4, hday e he sub h3⟩
  · intro s d p hd hp hne
    rcases hgrid s d p hd hp with h | ⟨i, hi⟩
    · exact absurd h hne
    · obtain ⟨_, _, _, sub, h3, h4⟩ := hcells _ hi
      exact ⟨i, sub, h3, hi, h4, hday _ hi sub h3⟩

/-- C3 as amended, at work: Math excludes "monday"; with two days of two periods
the draw of Monday is turned down and Section A gets Math on Tuesday. -/
theorem never_on_excluded_day_witness :
    (2 : Int).natAbs ≤ MAX_DAYS ∧ (2 : Int).natAbs ≤ MAX_PERIODS ∧
    (⟨0, 0, 1, 0⟩ : Placement) ∈ (distribute_subjects math_not_on_monday (init_sections 2 2)
      2 2 main_day_names (stream [0, 0, 1, 0, 1, 1])).2.written ∧
    ((⟨0, 0, 1, 0⟩ : Placement).day < MAX_DAYS ∧
      (⟨0, 0, 1, 0⟩ : Placement).period < MAX_PERIODS ∧
      ∃ sub, math_not_on_monday[(⟨0, 0, 1, 0⟩ : Placement).subject]? = some sub ∧
        ((distribute_subjects math_not_on_monday (init_sections 2 2) 2 2 main_day_names
          (stream [0, 0, 1, 0, 1, 1])).2.sections (⟨0, 0, 1, 0⟩ : Placement).sec).timetable
            (⟨0, 0, 1, 0⟩ : Placement).day (⟨0, 0, 1, 0⟩ : Placement).period =
          format_entry sub ∧
        to_lower_case (main_day_names.getD (⟨0, 0, 1, 0⟩ : Placement).day []) ∉
          sub.constraints) :=
  have h : (⟨0, 0, 1, 0⟩ : Placement) ∈ (distribute_subjects math_not_on_monday
      (init_sections 2 2) 2 2 main_day_names (stream [0, 0, 1, 0, 1, 1])).2.written := by
    rw [distribute_subjects_eq_fuel]; decide
  ⟨by decide, by decide, h,
    (never_on_excluded_day math_not_on_monday (init_sections 2 2) 2 2 main_day_names
      (stream [0, 0, 1, 0, 1, 1]) (by decide) (by decide)).1 _ h⟩

/-! ## How many cells each subject gets -/

theorem cells_of_nodup (w : List Placement) (s i : Nat)
    (h : (w.map fun e => (e.sec, e.day, e.period)).Nodup) : (cells_of w s i).Nodup := by
  induction w with
  | nil => simp [cells_of]
  | cons e w ih =>
    rw [List.map_cons, List.nodup_cons] at h
    rw [cells_of_cons]
    split
    · rename_i hes
      rw [List.nodup_cons]
      refine ⟨?_, ih h.2⟩
      intro hmem
      apply h.1
      unfold cells_of at hmem
      obtain ⟨e', he', heq⟩ := List.mem_map.1 hmem
      rw [List.mem_filter] at he'
      have h1 : e'.sec = s := (of_decide_eq_true he'.2).1
      simp only [Prod.mk.injEq] at heq
      refine List.mem_map.2 ⟨e', he'.1, ?_⟩
      rw [h1, hes.1, heq.1, heq.2]
    · exact ih h.2

theorem cells_of_mem (w : List Placement) (s i : Nat) (c : Nat × Nat)
    (h : c ∈ cells_of w s i) : (⟨s, i, c.1, c.2⟩ : Placement) ∈ w := by
  unfold cells_of at h
  obtain ⟨e, he, heq⟩ := List.mem_map.1 h
  rw [List.mem_filter] at he
  have h1 := of_decide_eq_true he.2
  have : e = ⟨s, i, c.1, c.2⟩ := by
    cases e
    simp only at h1 heq
    rw [← heq]
    simp [h1.1, h1.2]
  rw [← this]
  exact he.1

theorem cells_all_length (w : List Placement) (i : Nat)
    (h : ∀ e ∈ w, e.sec < MAX_SECTIONS) :
    (cells_all w i).length = (cells_of w 0 i).length + (cells_of w 1 i).length := by
  induction w with
  | nil => simp [cells_all, cells_of]
  | cons e w ih =>
    have ih' := ih (fun e' he' => h e' (List.mem_cons_of_mem _ he'))
    have hsec : e.sec < 2 := h e (List.mem_cons_self _ _)
    rw [cells_of_cons, cells_of_cons]
    unfold cells_all at *
    by_cases hi : e.subject = i
    · rw [List.filter_cons_of_pos (by simpa using hi), List.map_cons, List.length_cons, ih']
      by_cases h0 : e.sec = 0
      · rw [if_pos ⟨h0, hi⟩, if_neg (by omega), List.length_cons]
        omega
      · rw [if_neg (by tauto), if_pos ⟨by omega, hi⟩, List.length_cons]
        omega
    · rw [List.filter_cons_of_neg (by simpa using hi), ih', if_neg (by tauto),
        if_neg (by tauto)]

theorem cells_all_nodup (w : List Placement) (i : Nat)
    (h : (w.map fun e => (e.sec, e.day, e.period)).Nodup) : (cells_all w i).Nodup := by
  unfold cells_all
  exact h.sublist ((List.filter_sublist _).map _)

theorem cells_all_mem (w : List Placement) (i : Nat) (c : Nat × Nat × Nat)
    (h : c ∈ cells_all w i) : (⟨c.1, i, c.2.1, c.2.2⟩ : Placement) ∈ w := by
  unfold cells_all at h
  obtain ⟨e, he, heq⟩ := List.mem_map.1 h
  rw [List.mem_filter] at he
  have h1 := of_decide_eq_true he.2
  have : e = ⟨c.1, i, c.2.1, c.2.2⟩ := by
    cases e
    simp only at h1 heq
    rw [← heq]
    simp [h1]
  rw [← this]
  exact he.1

/-- C4 fails with eleven periods per day, which `main` accepts: on two days of
eleven periods with "Math" of two classes, the run completes, two assignments
are made in Section A, to `timetable[0][10]` and `timetable[0][1]`, and three of
its cells hold the record of Math when the run ends, because `timetable[0][10]`
is the memory of `timetable[1][0]`, to which no assignment was made. -/
theorem eleven_periods_three_cells :
    feasibility_check math_two 2 11 = none ∧
    (distribute_subjects math_two (init_sections 2 11) 2 11 main_day_names
      eleven_periods_draws).1 = Outcome.completed ∧
    (math_two[0]?).map Subject.classes_per_week = some 2 ∧
    (distribute_subjects math_two (init_sections 2 11) 2 11 main_day_names
      eleven_periods_draws).2.written =
        [⟨1, 0, 0, 2⟩, ⟨1, 0, 0, 0⟩, ⟨0, 0, 0, 1⟩, ⟨0, 0, 0, 10⟩] ∧
    ((distribute_subjects math_two (init_sections 2 11) 2 11 main_day_names
      eleven_periods_draws).2.sections 0).timetable 1 0 = "Math(A)".toList ∧
    cells_showing (distribute_subjects math_two (init_sections 2 11) 2 11 main_day_names
      eleven_periods_draws).2.sections 2 11 0 "Math(A)".toList = [(0, 1), (0, 10), (1, 0)] := by
  rw [distribute_subjects_eq_fuel]
  decide

/-- C4 as amended: when `working_days` is between -7 and 7 and `periods_per_day`
between -10 and 10, on a completed run the cells of section `s` assigned to a
subject with `classes_per_week ≥ 1` are exactly `classes_per_week` distinct cells
of its timetable, each of which holds the record of the subject when the run
ends; and every cell of that timetable that does not hold what it held before
the run is a cell assigned to some subject. -/
theorem each_section_holds_classes_per_week (subjects : List Subject)
    (sections : Nat → Section) (working_days periods_per_day : Int)
    (day_names : List CString) (rnd : Nat → Nat)
    (hwd : working_days.natAbs ≤ MAX_DAYS) (hppd : periods_per_day.natAbs ≤ MAX_PERIODS)
    (hdone : (distribute_subjects subjects sections working_days periods_per_day day_names
      rnd).1 = Outcome.completed)
    (s : Nat) (hs : s < MAX_SECTIONS) (i : Nat) (sub : Subject)
    (hsub : subjects[i]? = some sub) (hpos : 1 ≤ sub.classes_per_week) :
    ((cells_of (distribute_subjects subjects sections working_days periods_per_day day_names
      rnd).2.written s i).length : Int) = sub.classes_per_week ∧
    (cells_of (distribute_subjects subjects sections working_days periods_per_day day_names
      rnd).2.written s i).Nodup ∧
    (∀ c ∈ cells_of (distribute_subjects subjects sections working_days periods_per_day
        day_names rnd).2.written s i,
      c.1 < MAX_DAYS ∧ c.2 < MAX_PERIODS ∧
      (((distribute_subjects subjects sections working_days periods_per_day day_names
        rnd).2.sections s).timetable c.1 c.2) = format_entry sub) ∧
    (∀ d p, d < MAX_DAYS → p < MAX_PERIODS →
      ((distribute_subjects subjects sections working_days periods_per_day day_names
        rnd).2.sections s).timetable d p ≠ (sections s).timetable d p →
      ∃ j, (⟨s, j, d, p⟩ : Placement) ∈ (distribute_subjects subjects sections working_days
        periods_per_day day_names rnd).2.written) := by
  obtain ⟨hcells, hnodup, hgrid⟩ := distribute_subjects_faithful subjects sections
    working_days periods_per_day day_names rnd hwd hppd
  refine ⟨?_, cells_of_nodup _ s i hnodup, ?_, ?_⟩
  · rw [distribute_subjects_count subjects sections working_days periods_per_day day_names rnd
      hdone s hs i sub hsub]
    omega
  · intro c hc
    obtain ⟨_, h1, h2, sub', hsub', hcell⟩ := hcells _ (cells_of_mem _ s i c hc)
    simp only at hsub' hcell h1 h2
    rw [hsub] at hsub'
    cases hsub'
    exact ⟨h1, h2, hcell⟩
  · intro d p hd hp hne
    rcases hgrid s d p hd hp with h | h
    · exact absurd h hne
    · exact h

/-- C4 as amended, at work on the scenario of the specification: five days, four
periods, "Math" with four classes. The run completes, Section A holds Math in
exactly four cells, and eight assignments are made in all. -/
theorem each_section_holds_classes_per_week_witness :
    (5 : Int).natAbs ≤ MAX_DAYS ∧ (4 : Int).natAbs ≤ MAX_PERIODS ∧
    (distribute_subjects math_four (init_sections 5 4) 5 4 main_day_names
      math_four_draws).1 = Outcome.completed ∧
    (0 < MAX_SECTIONS ∧ 1 < MAX_SECTIONS) ∧
    math_four[0]? = some ⟨"Math".toList, 4, [], "A".toList⟩ ∧
    (distribute_subjects math_four (init_sections 5 4) 5 4 main_day_names
      math_four_draws).2.written.length = 8 ∧
    ((cells_of (distribute_subjects math_four (init_sections 5 4) 5 4 main_day_names
      math_four_draws).2.written 0 0).length : Int) =
        (⟨"Math".toList, 4, [], "A".toList⟩ : Subject).classes_per_week ∧
    ((cells_of (distribute_subjects math_four (init_sections 5 4) 5 4 main_day_names
      math_four_draws).2.written 1 0).length : Int) =
        (⟨"Math".toList, 4, [], "A".toList⟩ : Subject).classes_per_week :=
  have hdone : (distribute_subjects math_four (init_sections 5 4) 5 4 main_day_names
      math_four_draws).1 = Outcome.completed := by
    rw [distribute_subjects_eq_fuel]; decide
  have hlen : (distribute_subjects math_four (init_sections 5 4) 5 4 main_day_names
      math_four_draws).2.written.length = 8 := by
    rw [distribute_subjects_eq_fuel]; decide
  ⟨by decide, by decide, hdone, by decide, rfl, hlen,
    (each_section_holds_classes_per_week math_four (init_sections 5 4) 5 4 main_day_names
      math_four_draws (by decide) (by decide) hdone 0 (by decide) 0
      ⟨"Math".toList, 4, [], "A".toList⟩ rfl (by decide)).1,
    (each_section_holds_classes_per_week math_four (init_sections 5 4) 5 4 main_day_names
      math_four_draws (by decide) (by decide) hdone 1 (by decide) 0
      ⟨"Math".toList, 4, [], "A".toList⟩ rfl (by decide)).1⟩

/-- C5 fails on the scenario of the specification: the run completes and the
cells written for "Math", counted over both sections, are eight, while its
`classes_per_week` is four. -/
theorem math_four_total_is_not_four :
    (distribute_subjects math_four (init_sections 5 4) 5 4 main_day_names
      math_four_draws).1 = Outcome.completed ∧
    (math_four[0]?).map Subject.classes_per_week = some 4 ∧
    (cells_all (distribute_subjects math_four (init_sections 5 4) 5 4 main_day_names
      math_four_draws).2.written 0).length = 8 ∧
    ((cells_all (distribute_subjects math_four (init_sections 5 4) 5 4 main_day_names
      math_four_draws).2.written 0).length : Int) ≠ 4 ∧
    (distribute_subjects math_two (init_sections 2 11) 2 11 main_day_names
      eleven_periods_draws).1 = Outcome.completed ∧
    (math_two[0]?).map Subject.classes_per_week = some 2 ∧
    (cells_showing (distribute_subjects math_two (init_sections 2 11) 2 11 main_day_names
        eleven_periods_draws).2.sections 2 11 0 "Math(A)".toList).length +
      (cells_showing (distribute_subjects math_two (init_sections 2 11) 2 11 main_day_names
        eleven_periods_draws).2.sections 2 11 1 "Math(A)".toList).length = 5 := by
  rw [distribute_subjects_eq_fuel, distribute_subjects_eq_fuel]
  decide

/-- C5 as amended: when `working_days` is between -7 and 7 and `periods_per_day`
between -10 and 10, on a completed run the cells assigned to a subject, counted
over all sections together, are `MAX_SECTIONS` times its `classes_per_week` (none
when that is negative): each section gets the full number. They are distinct
cells of the timetables, each holds the record of the subject when the run ends,
and every cell of a timetable that does not hold what it held before the run is
a cell assigned to some subject. -/
theorem all_sections_hold_twice_classes_per_week (subjects : List Subject)
    (sections : Nat → Section) (working_days periods_per_day : Int)
    (day_names : List CString) (rnd : Nat → Nat)
    (hwd : working_days.natAbs ≤ MAX_DAYS) (hppd : periods_per_day.natAbs ≤ MAX_PERIODS)
    (hdone : (distribute_subjects subjects sections working_days periods_per_day day_names
      rnd).1 = Outcome.completed)
    (i : Nat) (sub : Subject) (hsub : subjects[i]? = some sub) :
    (cells_all (distribute_subjects subjects sections working_days periods_per_day day_names
      rnd).2.written i).length = MAX_SECTIONS * sub.classes_per_week.toNat ∧
    (cells_all (distribute_subjects subjects sections working_days periods_per_day day_names
      rnd).2.written i).Nodup ∧
    (∀ c ∈ cells_all (distribute_subjects subjects sections working_days periods_per_day
        day_names rnd).2.written i,
      c.1 < MAX_SECTIONS ∧ c.2.1 < MAX_DAYS ∧ c.2.2 < MAX_PERIODS ∧
      (((distribute_subjects subjects sections working_days periods_per_day day_names
        rnd).2.sections c.1).timetable c.2.1 c.2.2) = format_entry sub) ∧
    (∀ s d p, d < MAX_DAYS → p < MAX_PERIODS →
      ((distribute_subjects subjects sections working_days periods_per_day day_names
        rnd).2.sections s).timetable d p ≠ (sections s).timetable d p →
      ∃ j, (⟨s, j, d, p⟩ : Placement) ∈ (distribute_subjects subjects sections working_days
        periods_per_day day_names rnd).2.written) := by
  obtain ⟨hcells, hnodup, hgrid⟩ := distribute_subjects_faithful subjects sections
    working_days periods_per_day day_names rnd hwd hppd
  refine ⟨?_, cells_all_nodup _ i hnodup, ?_, ?_⟩
  · rw [cells_all_length _ i (fun e he => (hcells e he).1),
      distribute_subjects_count subjects sections working_days periods_per_day day_names rnd
        hdone 0 (by decide) i sub hsub,
      distribute_subjects_count subjects sections working_days periods_per_day day_names rnd
        hdone 1 (by decide) i sub hsub]
    simp only [MAX_SECTIONS]
    omega
  · intro c hc
    obtain ⟨h0, h1, h2, sub', hsub', hcell⟩ := hcells _ (cells_all_mem _ i c hc)
    simp only at hsub' hcell h0 h1 h2
    rw [hsub] at hsub'
    cases hsub'
    exact ⟨h0, h1, h2, hcell⟩
  · intro s d p hd hp hne
    rcases hgrid s d p hd hp with h | h
    · exact absurd h hne
    · exact h

/-- C5 as amended, at work on the scenario of the specification. -/
theorem all_sections_hold_twice_classes_per_week_witness :
    (5 : Int).natAbs ≤ MAX_DAYS ∧ (4 : Int).natAbs ≤ MAX_PERIODS ∧
    (distribute_subjects math_four (init_sections 5 4) 5 4 main_day_names
      math_four_draws).1 = Outcome.completed ∧
    math_four[0]? = some ⟨"Math".toList, 4, [], "A".toList⟩ ∧
    (cells_all (distribute_subjects math_four (init_sections 5 4) 5 4 main_day_names
      math_four_draws).2.written 0).length =
        MAX_SECTIONS * (⟨"Math".toList, 4, [], "A".toList⟩ : Subject).classes_per_week.toNat :=
  have hdone : (distribute_subjects math_four (init_sections 5 4) 5 4 main_day_names
      math_four_draws).1 = Outcome.completed := by
    rw [distribute_subjects_eq_fuel]; decide
  ⟨by decide, by decide, hdone, rfl,
    (all_sections_hold_twice_classes_per_week math_four (init_sections 5 4) 5 4
      main_day_names math_four_draws (by decide) (by decide) hdone 0
      ⟨"Math".toList, 4, [], "A".toList⟩ rfl).1⟩

/-! ## The feasibility checks -/

theorem wrap_of_fits (x : Int) (h : fits x) : wrap x = x := by
  unfold wrap
  unfold fits INT_MIN INT_MAX at h
  omega

theorem foldl_classes (l : List Subject) (acc : Int) (h : sum_fits l acc) :
    l.foldl (fun acc sub => wrap (acc + sub.classes_per_week)) acc = acc + sum_classes l := by
  induction l generalizing acc with
  | nil => simp [sum_classes]
  | cons sub rest ih =>
    obtain ⟨h1, h2⟩ := h
    rw [List.foldl_cons, wrap_of_fits _ h1, ih _ h2]
    simp only [sum_classes, List.map_cons, List.sum_cons]
    omega

theorem total_required_eq (subjects : List Subject) (h : sum_fits subjects 0) :
    total_required subjects = sum_classes subjects := by
  rw [total_required, foldl_classes _ _ h]
  omega

theorem product_eq (a b : Int) (h : product_fits a b) :
    wrap (wrap (a * b) * ((MAX_SECTIONS : Nat) : Int)) = a * b * 2 := by
  have hcast : ((MAX_SECTIONS : Nat) : Int) = 2 := rfl
  rw [hcast, wrap_of_fits _ h.1, wrap_of_fits _ h.2]

theorem check_subjects_none_iff (working_days periods_per_day : Int) :
    ∀ (l : List Subject) (i : Nat),
      (∀ sub ∈ l, subject_fits working_days periods_per_day sub) →
      (check_subjects working_days periods_per_day l i = none ↔
        ∀ sub ∈ l, ¬ fails_check working_days periods_per_day sub) := by
  intro l
  induction l with
  | nil => intro i _; simp [check_subjects]
  | cons sub rest ih =>
    intro i hfit
    have hsub := hfit sub (List.mem_cons_self _ _)
    have hrest : ∀ sub' ∈ rest, subject_fits working_days periods_per_day sub' :=
      fun sub' h => hfit sub' (List.mem_cons_of_mem _ h)
    have hcast : ((MAX_SECTIONS : Nat) : Int) = 2 := rfl
    rw [check_subjects, wrap_of_fits _ hsub.1, product_eq _ _ hsub.2]
    by_cases h1 : working_days - (sub.num_constraints : Int) < 1
    · rw [if_pos h1]
      simp only [List.mem_cons, forall_eq_or_imp, fails_check, false_iff, reduceCtorEq]
      intro h
      exact h.1 (Or.inl h1)
    · rw [if_neg h1]
      by_cases h2 : sub.classes_per_week >
          (working_days - (sub.num_constraints : Int)) * periods_per_day * 2
      · rw [if_pos h2]
        simp only [List.mem_cons, forall_eq_or_imp, fails_check, false_iff, reduceCtorEq, hcast]
        intro h
        exact h.1 (Or.inr h2)
      · rw [if_neg h2, ih _ hrest]
        simp only [List.mem_cons, forall_eq_or_imp]
        constructor
        · intro h
          refine ⟨?_, h⟩
          unfold fails_check
          rw [hcast]
          rintro (h' | h')
          · exact h1 h'
          · exact h2 h'
        · exact fun h => h.2

theorem check_subjects_not_capacity (working_days periods_per_day : Int) :
    ∀ (l : List Subject) (i : Nat) (r a : Int),
      check_subjects working_days periods_per_day l i ≠
        some (Rejection.capacity_exceeded r a) := by
  intro l
  induction l with
  | nil => intro i r a hh; simp [check_subjects] at hh
  | cons sub rest ih =>
    intro i r a hh
    rw [check_subjects] at hh
    split at hh
    · cases hh
    · split at hh
      · cases hh
      · exact ih _ _ _ hh

/-- C6 fails when the sum overflows: with "Art" of 2147483647 classes and "Math"
of one class, on one day with one period, the sum of `classes_per_week` exceeds
`1 * 1 * 2`, but `total_required` wraps around to `INT_MIN`, the capacity check
passes and `main` reports the per-subject error for Art. -/
theorem sum_wraps_past_capacity_check :
    sum_classes art_overflows > 1 * 1 * 2 ∧
    feasibility_check art_overflows 1 1 =
      some (Rejection.too_many_periods 0 2147483647 2) := by
  decide

/-- C6 as amended: when the sum of `classes_per_week` and the product
`working_days * periods_per_day * 2` are computed without overflow, `main`
leaves with the capacity error, reporting `r` required and `a` available,
exactly when the sum exceeds the product, and then `r` is that sum and `a` that
product; the per-subject checks play no part in it. -/
theorem capacity_error_iff (subjects : List Subject) (working_days periods_per_day : Int)
    (hsum : sum_fits subjects 0) (hprod : product_fits working_days periods_per_day)
    (r a : Int) :
    feasibility_check subjects working_days periods_per_day =
        some (Rejection.capacity_exceeded r a) ↔
      (sum_classes subjects > working_days * periods_per_day * 2 ∧
       r = sum_classes subjects ∧ a = working_days * periods_per_day * 2) := by
  unfold feasibility_check
  dsimp only
  rw [total_required_eq _ hsum, product_eq _ _ hprod]
  by_cases h : sum_classes subjects > working_days * periods_per_day * 2
  · rw [if_pos h]
    simp only [Option.some.injEq, Rejection.capacity_exceeded.injEq]
    constructor
    · rintro ⟨h1, h2⟩
      exact ⟨h, h1.symm, h2.symm⟩
    · rintro ⟨_, h1, h2⟩
      exact ⟨h1.symm, h2.symm⟩
  · rw [if_neg h]
    constructor
    · intro hc
      exact absurd hc (check_subjects_not_capacity _ _ _ _ _ _)
    · rintro ⟨h1, _⟩
      exact absurd h1 h

/-- C6 as amended, on the scenario of the specification: one working day, one
period, one subject with three classes is turned down with 3 required and 2
available. -/
theorem capacity_error_iff_witness :
    sum_fits [⟨"Math".toList, 3, [], "Alice".toList⟩] 0 ∧ product_fits 1 1 ∧
    feasibility_check [⟨"Math".toList, 3, [], "Alice".toList⟩] 1 1 =
      some (Rejection.capacity_exceeded 3 2) :=
  have hsum : sum_fits [⟨"Math".toList, 3, [], "Alice".toList⟩] 0 := by
    simp [sum_fits, fits, INT_MIN, INT_MAX]
  have hprod : product_fits 1 1 := by
    simp [product_fits, fits, INT_MIN, INT_MAX]
  ⟨hsum, hprod,
    (capacity_error_iff [⟨"Math".toList, 3, [], "Alice".toList⟩] 1 1 hsum hprod 3 2).2
      ⟨by decide, by decide, by decide⟩⟩

theorem feasibility_check_none_iff (subjects : List Subject)
    (working_days periods_per_day : Int)
    (hfit : no_overflow subjects working_days periods_per_day) :
    feasibility_check subjects working_days periods_per_day = none ↔
      feasible subjects working_days periods_per_day := by
  obtain ⟨hsum, hprod, hsubs⟩ := hfit
  unfold feasibility_check feasible
  dsimp only
  rw [total_required_eq _ hsum, product_eq _ _ hprod]
  by_cases h : sum_classes subjects > working_days * periods_per_day * 2
  · rw [if_pos h]
    simp only [reduceCtorEq, false_iff]
    intro hf
    omega
  · rw [if_neg h, check_subjects_none_iff _ _ _ _ hsubs]
    unfold fails_check
    have hcast' : ∀ x : Int, x * periods_per_day * ((MAX_SECTIONS : Nat) : Int) =
        x * periods_per_day * 2 := fun _ => rfl
    simp only [hcast']
    constructor
    · intro hall
      refine ⟨by omega, ?_, ?_⟩
      · intro sub hsub
        have := hall sub hsub
        omega
      · intro sub hsub
        have := hall sub hsub
        omega
    · rintro ⟨_, h1, h2⟩ sub hsub
      have := h1 sub hsub
      have := h2 sub hsub
      omega

/-- C7 fails when the product overflows: with 65536 working days and 32768
periods per day, one subject with one class meets the three conditions, but the
product `working_days * periods_per_day * 2` wraps around to 0 and `main` leaves
with the capacity error (1 required, 0 available). -/
theorem product_wraps_to_zero :
    feasible one_class 65536 32768 ∧
    feasibility_check one_class 65536 32768 = some (Rejection.capacity_exceeded 1 0) := by
  unfold feasible
  decide

/-- C7 as amended: when no operation of the feasibility checks overflows, `main`
goes on to the allocation exactly when the sum of `classes_per_week` is at most
`working_days * periods_per_day * 2` and every subject has at least one
available day and at most `(working_days - num_constraints) * periods_per_day *
2` classes. Then it runs `distribute_subjects` on the initialised timetables;
otherwise it leaves with an error and no cell is written. -/
theorem allocation_starts_iff (subjects : List Subject) (working_days periods_per_day : Int)
    (rnd : Nat → Nat) (hfit : no_overflow subjects working_days periods_per_day) :
    (feasibility_check subjects working_days periods_per_day = none ↔
      feasible subjects working_days periods_per_day) ∧
    (feasible subjects working_days periods_per_day →
      main subjects working_days periods_per_day rnd =
        MainResult.scheduled
          (distribute_subjects subjects (init_sections working_days periods_per_day)
            working_days periods_per_day main_day_names rnd).1
          (distribute_subjects subjects (init_sections working_days periods_per_day)
            working_days periods_per_day main_day_names rnd).2) ∧
    (¬ feasible subjects working_days periods_per_day →
      (∃ r, main subjects working_days periods_per_day rnd = MainResult.rejected r) ∧
      (main subjects working_days periods_per_day rnd).written = []) := by
  refine ⟨feasibility_check_none_iff subjects working_days periods_per_day hfit, ?_, ?_⟩
  · intro hf
    have := (feasibility_check_none_iff subjects working_days periods_per_day hfit).2 hf
    unfold main
    rw [this]
  · intro hf
    cases hfc : feasibility_check subjects working_days periods_per_day with
    | none =>
      exact absurd
        ((feasibility_check_none_iff subjects working_days periods_per_day hfit).1 hfc) hf
    | some r =>
      unfold main
      rw [hfc]
      exact ⟨⟨r, rfl⟩, rfl⟩

/-- C7 as amended, on the scenario of the specification: a subject that excludes
all five of five working days is turned down and no cell is written. -/
theorem allocation_starts_iff_witness :
    no_overflow excludes_all_days 5 4 ∧
    ¬ feasible excludes_all_days 5 4 ∧
    (∃ r, main excludes_all_days 5 4 (stream []) = MainResult.rejected r) ∧
    (main excludes_all_days 5 4 (stream [])).written = [] :=
  have hfit : no_overflow excludes_all_days 5 4 := by
    simp [no_overflow, sum_fits, product_fits, subject_fits, fits, INT_MIN, INT_MAX,
      excludes_all_days, Subject.num_constraints]
  have h : ¬ feasible excludes_all_days 5 4 := by
    unfold feasible
    decide
  ⟨hfit, h, (allocation_starts_iff excludes_all_days 5 4 (stream []) hfit).2.2 h⟩

/-- C10: the loop body keeps the draw `(d, p)`, recording the assignment and
writing the cell, exactly when the cell `sections[s].timetable[d][p]` is "Free",
`is_faculty_available` returns 1, `is_subject_clash` returns 0 and the
lower-cased `day_names[d]` is not among the constraints of the subject. Then
`remaining` drops by one and `attempts` is reset; otherwise `attempts` grows by
exactly one and `remaining`, the timetables and the record stay as they are.
The cell is read as the program reads it (`read_cell`); for `d < MAX_DAYS` and
`p < MAX_PERIODS` it is the entry `timetable d p` of the section
(`read_cell_in_bounds`). -/
theorem draw_kept_iff (day_names : List CString) (sub : Subject) (i s d p : Nat)
    (st : LoopState) :
    ((loop_body day_names sub i s d p st).alloc.written = ⟨s, i, d, p⟩ :: st.alloc.written ↔
      (read_cell st.alloc.sections s d p = FREE ∧
       is_faculty_available sub.faculty d p st.alloc.sections s = true ∧
       is_subject_clash sub.name d p st.alloc.sections s = false ∧
       to_lower_case (day_names.getD d []) ∉ sub.constraints)) ∧
    ((loop_body day_names sub i s d p st).alloc.written = ⟨s, i, d, p⟩ :: st.alloc.written →
      read_cell (loop_body day_names sub i s d p st).alloc.sections s d p =
        format_entry sub ∧
      (loop_body day_names sub i s d p st).remaining = st.remaining - 1 ∧
      (loop_body day_names sub i s d p st).attempts = 0) ∧
    (¬ (loop_body day_names sub i s d p st).alloc.written = ⟨s, i, d, p⟩ :: st.alloc.written →
      (loop_body day_names sub i s d p st).attempts = st.attempts + 1 ∧
      (loop_body day_names sub i s d p st).remaining = st.remaining ∧
      (loop_body day_names sub i s d p st).alloc.sections = st.alloc.sections ∧
      (loop_body day_names sub i s d p st).alloc.written = st.alloc.written) := by
  have hiff : accepts day_names sub s d p st.alloc.sections ↔
      (read_cell st.alloc.sections s d p = FREE ∧
       is_faculty_available sub.faculty d p st.alloc.sections s = true ∧
       is_subject_clash sub.name d p st.alloc.sections s = false ∧
       to_lower_case (day_names.getD d []) ∉ sub.constraints) := by
    unfold accepts
    rw [← day_constrained_iff, Bool.not_eq_true]
  by_cases ha : accepts day_names sub s d p st.alloc.sections
  · rw [loop_body_of_accepts _ _ _ _ _ _ _ ha]
    refine ⟨⟨fun _ => hiff.1 ha, fun _ => rfl⟩, ?_, ?_⟩
    · intro _
      exact ⟨write_cell_same _ _ _ _ _, rfl, rfl⟩
    · intro h
      exact absurd rfl h
  · rw [loop_body_of_not_accepts _ _ _ _ _ _ _ ha]
    have hne : ¬ (reject st).alloc.written = ⟨s, i, d, p⟩ :: st.alloc.written := by
      intro h
      have := congrArg List.length h
      simp [reject] at this
    refine ⟨⟨fun h => absurd h hne, fun h => absurd (hiff.2 h) ha⟩, ?_, ?_⟩
    · intro h
      exact absurd h hne
    · intro _
      exact ⟨rfl, rfl, rfl, rfl⟩

/-- C10 at work: on the empty timetables of one day with two periods, the draw
of (day 0, period 1) for "Math" in Section A is kept. -/
theorem draw_kept_iff_witness :
    (loop_body main_day_names ⟨"Math".toList, 1, [], "Alice".toList⟩ 0 0 0 1
      ⟨1, 0, ⟨init_sections 1 2, 2, []⟩⟩).alloc.written = [⟨0, 0, 0, 1⟩] ∧
    read_cell (loop_body main_day_names ⟨"Math".toList, 1, [], "Alice".toList⟩ 0 0 0 1
      ⟨1, 0, ⟨init_sections 1 2, 2, []⟩⟩).alloc.sections 0 0 1 =
        "Math(A)".toList ∧
    (loop_body main_day_names ⟨"Math".toList, 1, [], "Alice".toList⟩ 0 0 0 1
      ⟨1, 0, ⟨init_sections 1 2, 2, []⟩⟩).remaining = 1 - 1 ∧
    (loop_body main_day_names ⟨"Math".toList, 1, [], "Alice".toList⟩ 0 0 0 1
      ⟨1, 0, ⟨init_sections 1 2, 2, []⟩⟩).attempts = 0 :=
  have h : (loop_body main_day_names ⟨"Math".toList, 1, [], "Alice".toList⟩ 0 0 0 1
      ⟨1, 0, ⟨init_sections 1 2, 2, []⟩⟩).alloc.written = [⟨0, 0, 0, 1⟩] := by decide
  ⟨h, (draw_kept_iff main_day_names ⟨"Math".toList, 1, [], "Alice".toList⟩ 0 0 0 1
    ⟨1, 0, ⟨init_sections 1 2, 2, []⟩⟩).2.1 h⟩

/-! ## A request that passes the checks and cannot be placed -/

theorem rand_mod_one (r : Nat) : rand_mod r 1 = some 0 := by
  simp [rand_mod]

theorem rand_mod_some (r : Nat) (m : Int) (hm : m ≠ 0) :
    rand_mod r m = some (Int.tmod r m).toNat := by
  rw [rand_mod, if_neg hm]

theorem while_loop_stuck (working_days periods_per_day : Int) (rnd : Nat → Nat)
    (day_names : List CString) (sub : Subject) (i s : Nat)
    (hwd : working_days ≠ 0) (hppd : periods_per_day ≠ 0) :
    ∀ (n : Nat) (st : LoopState), max_attempts - st.attempts ≤ n →
      (∀ d p, (∃ r, rand_mod r working_days = some d) →
        (∃ r, rand_mod r periods_per_day = some p) →
        ¬ accepts day_names sub s d p st.alloc.sections) →
      ∃ r, while_loop working_days periods_per_day rnd day_names sub i s st = .ok r ∧
        r.remaining = st.remaining ∧ r.alloc.sections = st.alloc.sections ∧
        r.alloc.written = st.alloc.written := by
  intro n
  induction n with
  | zero =>
    intro st hn _
    rw [while_loop, dif_neg (by omega)]
    exact ⟨st, rfl, rfl, rfl, rfl⟩
  | succ n ih =>
    intro st hn hrej
    by_cases hc : 0 < st.remaining ∧ st.attempts < max_attempts
    · rw [while_loop, dif_pos hc, rand_mod_some _ _ hwd, rand_mod_some _ _ hppd]
      dsimp only
      have hna : ¬ accepts day_names sub s
          (Int.tmod (rnd st.alloc.rand_calls) working_days).toNat
          (Int.tmod (rnd (st.alloc.rand_calls + 1)) periods_per_day).toNat
          (after_draw st).alloc.sections :=
        hrej _ _ ⟨_, rand_mod_some _ _ hwd⟩ ⟨_, rand_mod_some _ _ hppd⟩
      rw [loop_body_of_not_accepts _ _ _ _ _ _ _ hna]
      obtain ⟨r, h1, h2, h3, h4⟩ := ih (reject (after_draw st))
        (by simp only [reject, after_draw]; omega) hrej
      exact ⟨r, h1, h2, h3, h4⟩
    · rw [while_loop, dif_neg hc]
      exact ⟨st, rfl, rfl, rfl, rfl⟩

theorem one_cell_run_fails (rnd : Nat → Nat) :
    (distribute_subjects two_classes_one_cell (init_sections 1 1) 1 1 main_day_names
      rnd).1 = Outcome.placement_failed 0 0 1 := by
  have hacc : accepts main_day_names ⟨"Math".toList, 2, [], "Alice".toList⟩ 0 0 0
      (init_sections 1 1) := by
    unfold accepts
    decide
  have hstuck := while_loop_stuck 1 1 rnd main_day_names
    ⟨"Math".toList, 2, [], "Alice".toList⟩ 0 0 (by decide) (by decide) max_attempts
    ⟨2 - 1, 0, ⟨write_cell (init_sections 1 1) 0 0 0
      (format_entry ⟨"Math".toList, 2, [], "Alice".toList⟩), 0 + 2, [⟨0, 0, 0, 0⟩]⟩⟩
    (by simp)
    (by
      rintro d p ⟨r₁, h₁⟩ ⟨r₂, h₂⟩ ⟨hfree, _⟩
      rw [rand_mod_one] at h₁ h₂
      cases h₁
      cases h₂
      revert hfree
      decide)
  obtain ⟨r, hr, hrem, _, _⟩ := hstuck
  have hloop : while_loop 1 1 rnd main_day_names ⟨"Math".toList, 2, [], "Alice".toList⟩ 0 0
      ⟨2, 0, ⟨init_sections 1 1, 0, []⟩⟩ = .ok r := by
    rw [while_loop, dif_pos (by decide), rand_mod_one, rand_mod_one]
    dsimp only
    rw [loop_body_of_accepts _ _ _ _ _ _ _ hacc]
    exact hr
  have hrem' : r.remaining = 1 := by rw [hrem]; rfl
  have hsub : subjects_loop 1 1 rnd main_day_names 0 two_classes_one_cell 0
      ⟨init_sections 1 1, 0, []⟩ = (Outcome.placement_failed 0 0 1, r.alloc) := by
    rw [two_classes_one_cell, subjects_loop]
    show (match while_loop 1 1 rnd main_day_names ⟨"Math".toList, 2, [], "Alice".toList⟩ 0 0
      ⟨2, 0, ⟨init_sections 1 1, 0, []⟩⟩ with
      | .error st' => (Outcome.division_by_zero, st'.alloc)
      | .ok st' =>
        if 0 < st'.remaining then (Outcome.placement_failed 0 0 st'.remaining, st'.alloc)
        else subjects_loop 1 1 rnd main_day_names 0 [] (0 + 1) st'.alloc) = _
    rw [hloop]
    dsimp only
    rw [if_pos (by omega), hrem']
  have hrange : List.range MAX_SECTIONS = [0, 1] := by decide
  rw [distribute_subjects, hrange, sections_loop, hsub]

/-- C8, evaluated on one working day with one period and one subject with two
classes per week: the feasibility checks pass (2 ≤ 1 * 1 * 2), and whatever
`rand()` returns, `distribute_subjects` reports that one class of subject 0 could
not be placed in Section A, whose only cell is taken by the first class. -/
theorem accepted_request_is_never_placed (rnd : Nat → Nat) :
    feasibility_check two_classes_one_cell 1 1 = none ∧
    (distribute_subjects two_classes_one_cell (init_sections 1 1) 1 1 main_day_names
      rnd).1 = Outcome.placement_failed 0 0 1 :=
  ⟨by decide, one_cell_run_fails rnd⟩

/-! ## The subject clash check -/

theorem any_other_section_iff (text : Nat → CString) (needle : CString) (cur : Nat) :
    ((List.range MAX_SECTIONS).any fun s => s != cur && strstr_found (text s) needle) = true ↔
      ∃ s, s < MAX_SECTIONS ∧ s ≠ cur ∧ needle <:+: text s := by
  rw [List.any_eq_true]
  constructor
  · rintro ⟨s, hs, h⟩
    rw [Bool.and_eq_true] at h
    exact ⟨s, List.mem_range.1 hs, by simpa using h.1, (strstr_found_iff _ _).1 h.2⟩
  · rintro ⟨s, hs, hne, h⟩
    refine ⟨s, List.mem_range.2 hs, ?_⟩
    rw [Bool.and_eq_true]
    exact ⟨by simpa using hne, (strstr_found_iff _ _).2 h⟩

/-- C17: `is_subject_clash` returns 1 exactly when the cell
`sections[s].timetable[day][period]` of some section `s` other than the current
one contains the subject name as a contiguous substring. The cell is read as
the program reads it (`read_cell`); for `day < MAX_DAYS` and
`period < MAX_PERIODS` it is the entry `timetable day period` of the section
(`read_cell_in_bounds`). -/
theorem is_subject_clash_iff (subject : CString) (day period : Nat)
    (sections : Nat → Section) (current_section : Nat) :
    is_subject_clash subject day period sections current_section = true ↔
      ∃ s, s < MAX_SECTIONS ∧ s ≠ current_section ∧
        subject <:+: read_cell sections s day period := by
  unfold is_subject_clash
  exact any_other_section_iff (fun s => read_cell sections s day period) subject
    current_section

/-- C17 at work: "Math" clashes with the record "Maths(B)" of another subject in
Section A, and the name "re" clashes with a free cell of Section B. -/
theorem is_subject_clash_iff_witness :
    is_subject_clash "Math".toList 0 0
      (write_cell (init_sections 1 1) 0 0 0
        (format_entry ⟨"Maths".toList, 1, [], "Bob".toList⟩)) 1 = true ∧
    is_subject_clash "re".toList 0 0 (init_sections 1 1) 0 = true :=
  ⟨(is_subject_clash_iff "Math".toList 0 0
      (write_cell (init_sections 1 1) 0 0 0
        (format_entry ⟨"Maths".toList, 1, [], "Bob".toList⟩)) 1).2
      ⟨0, by decide, by decide, ⟨[], "s(B)".toList, by decide⟩⟩,
   (is_subject_clash_iff "re".toList 0 0 (init_sections 1 1) 0).2
      ⟨1, by decide, by decide, ⟨"F".toList, "e".toList, by decide⟩⟩⟩

/-! ## What one draw changes -/

theorem foldl_stable {α β : Type} (P : α → Prop) (step : α → β → α)
    (h : ∀ a b, P a → P (step a b)) : ∀ (l : List β) (a : α), P a → P (l.foldl step a) := by
  intro l
  induction l with
  | nil => intro a ha; exact ha
  | cons b l ih => intro a ha; exact ih _ (h a b ha)

theorem foldl_reach {α β : Type} (P : α → Prop) (step : α → β → α)
    (hstable : ∀ a b, P a → P (step a b)) (x : β) (hx : ∀ a, P (step a x)) :
    ∀ (l : List β) (a : α), x ∈ l → P (l.foldl step a) := by
  intro l
  induction l with
  | nil => intro a hmem; exact absurd hmem (List.not_mem_nil x)
  | cons b l ih =>
    intro a hmem
    rcases List.mem_cons.1 hmem with h | h
    · subst h
      exact foldl_stable P step hstable l _ (hx a)
    · exact ih _ h

theorem init_sections_free (working_days periods_per_day : Int) (s d p : Nat)
    (hs : s < MAX_SECTIONS) (hd : (d : Int) < working_days) (hp : (p : Int) < periods_per_day) :
    read_cell (init_sections working_days periods_per_day) s d p = FREE := by
  have hw : ∀ (s' d' : Nat) (secs : Nat → Section) (p' : Nat),
      read_cell secs s d p = FREE → read_cell (write_cell secs s' d' p' FREE) s d p = FREE := by
    intro s' d' secs p' h
    rw [read_cell_write_cell]
    split
    · rfl
    · exact h
  have hin : ∀ (s' : Nat) (secs : Nat → Section) (d' : Nat),
      read_cell secs s d p = FREE →
      read_cell ((List.range periods_per_day.toNat).foldl
        (fun secs p => write_cell secs s' d' p FREE) secs) s d p = FREE :=
    fun s' secs d' h =>
      foldl_stable (fun secs => read_cell secs s d p = FREE) _ (hw s' d') _ secs h
  have hmid : ∀ (secs : Nat → Section) (s' : Nat),
      read_cell secs s d p = FREE →
      read_cell ((List.range working_days.toNat).foldl
        (fun secs d => (List.range periods_per_day.toNat).foldl
          (fun secs p => write_cell secs s' d p FREE) secs) secs) s d p = FREE :=
    fun secs s' h =>
      foldl_stable (fun secs => read_cell secs s d p = FREE) _ (hin s') _ secs h
  unfold init_sections
  refine foldl_reach (fun secs => read_cell secs s d p = FREE) _ hmid s ?_ _ _
    (List.mem_range.2 hs)
  intro secs
  refine foldl_reach (fun secs => read_cell secs s d p = FREE) _ (hin s) d ?_ _ _
    (List.mem_range.2 (by omega))
  intro secs
  refine foldl_reach (fun secs => read_cell secs s d p = FREE) _ (hw s d) p ?_ _ _
    (List.mem_range.2 (by omega))
  intro secs
  exact write_cell_same _ _ _ _ _

/-- C12: the loop body writes nothing when the drawn cell does not hold "Free",
and the record it writes is never "Free". So, on every run from any timetables:
no string of the array `sections` is assigned twice, so no cell is, and every
assigned cell still holds the record of its subject when the run ends. And when
every cell of a section within the working days and periods holds "Free" at the
start, as after the initialisation of `main`, each of these cells holds "Free"
when the run ends or is the string of an assigned cell. -/
theorem cells_written_once (subjects : List Subject) (sections : Nat → Section)
    (working_days periods_per_day : Int) (day_names : List CString) (rnd : Nat → Nat) :
    (∀ (sub : Subject) (i s d p : Nat) (st : LoopState),
      read_cell st.alloc.sections s d p ≠ FREE →
        (loop_body day_names sub i s d p st).alloc.sections = st.alloc.sections ∧
        (loop_body day_names sub i s d p st).alloc.written = st.alloc.written) ∧
    (∀ sub : Subject, format_entry sub ≠ FREE) ∧
    ((distribute_subjects subjects sections working_days periods_per_day day_names
      rnd).2.written.map fun e => string_index e.sec e.day e.period).Nodup ∧
    ((distribute_subjects subjects sections working_days periods_per_day day_names
      rnd).2.written.map fun e => (e.sec, e.day, e.period)).Nodup ∧
    (∀ e ∈ (distribute_subjects subjects sections working_days periods_per_day day_names
        rnd).2.written,
      ∃ sub, subjects[e.subject]? = some sub ∧
        read_cell (distribute_subjects subjects sections working_days periods_per_day
          day_names rnd).2.sections e.sec e.day e.period = format_entry sub) ∧
    ((∀ s d p : Nat, s < MAX_SECTIONS → (d : Int) < working_days →
        (p : Int) < periods_per_day → read_cell sections s d p = FREE) →
      ∀ s d p : Nat, s < MAX_SECTIONS → (d : Int) < working_days →
        (p : Int) < periods_per_day →
        read_cell (distribute_subjects subjects sections working_days periods_per_day
          day_names rnd).2.sections s d p = FREE ∨
        ∃ e ∈ (distribute_subjects subjects sections working_days periods_per_day day_names
          rnd).2.written,
          string_index e.sec e.day e.period = string_index s d p) ∧
    (∀ s d p : Nat, s < MAX_SECTIONS → (d : Int) < working_days →
      (p : Int) < periods_per_day →
      read_cell (init_sections working_days periods_per_day) s d p = FREE) := by
  have hcons := distribute_subjects_preserves subjects sections working_days periods_per_day
    day_names rnd _ (consistent_preserved subjects working_days periods_per_day day_names)
    ⟨fun e he => absurd he (List.not_mem_nil e), List.nodup_nil⟩
  have hinit := distribute_subjects_preserves subjects sections working_days periods_per_day
    day_names rnd _ (initial_or_written_preserved subjects working_days periods_per_day
      day_names sections)
    (fun _ => Or.inl rfl)
  refine ⟨?_, format_entry_ne_free, hcons.2, ?_, ?_, ?_,
    init_sections_free working_days periods_per_day⟩
  · intro sub i s d p st hne
    have ha : ¬ accepts day_names sub s d p st.alloc.sections := fun h => hne h.1
    rw [loop_body_of_not_accepts _ _ _ _ _ _ _ ha]
    exact ⟨rfl, rfl⟩
  · refine List.Nodup.of_map (fun c : Nat × Nat × Nat => string_index c.1 c.2.1 c.2.2) ?_
    rw [List.map_map]
    exact hcons.2
  · intro e he
    obtain ⟨_, sub, h1, h2⟩ := hcons.1 e he
    exact ⟨sub, h1, h2⟩
  · intro hfree s d p hs hd hp
    rcases hinit (string_index s d p) with h | h
    · left
      show string_at _ _ = FREE
      rw [h]
      exact hfree s d p hs hd hp
    · exact Or.inr h

/-- C12 at work on the run with "Math" and "Phys": the cell of Section A that
was assigned to Phys holds "Phys(A)" when the run ends, and a draw of that cell
for Math writes nothing. -/
theorem cells_written_once_witness :
    (⟨0, 1, 0, 1⟩ : Placement) ∈ (distribute_subjects two_subjects_one_faculty
      (init_sections 1 2) 1 2 main_day_names (stream [0, 0, 0, 1, 0, 1, 0, 0])).2.written ∧
    (∃ sub, two_subjects_one_faculty[(⟨0, 1, 0, 1⟩ : Placement).subject]? = some sub ∧
      read_cell (distribute_subjects two_subjects_one_faculty (init_sections 1 2) 1 2
        main_day_names (stream [0, 0, 0, 1, 0, 1, 0, 0])).2.sections
          (⟨0, 1, 0, 1⟩ : Placement).sec (⟨0, 1, 0, 1⟩ : Placement).day
          (⟨0, 1, 0, 1⟩ : Placement).period =
        format_entry sub) ∧
    read_cell (write_cell (init_sections 1 2) 0 0 1 "Phys(A)".toList) 0 0 1 ≠ FREE ∧
    (loop_body main_day_names ⟨"Math".toList, 1, [], "Alice".toList⟩ 0 0 0 1
      ⟨1, 0, ⟨write_cell (init_sections 1 2) 0 0 1 "Phys(A)".toList, 4,
        [⟨0, 1, 0, 1⟩]⟩⟩).alloc.written = [⟨0, 1, 0, 1⟩] ∧
    (0 < MAX_SECTIONS ∧ ((0 : Nat) : Int) < 1 ∧ ((1 : Nat) : Int) < 2) ∧
    read_cell (init_sections 1 2) 0 0 1 = FREE :=
  have h : (⟨0, 1, 0, 1⟩ : Placement) ∈ (distribute_subjects two_subjects_one_faculty
      (init_sections 1 2) 1 2 main_day_names (stream [0, 0, 0, 1, 0, 1, 0, 0])).2.written := by
    rw [distribute_subjects_eq_fuel]; decide
  have hne : read_cell (write_cell (init_sections 1 2) 0 0 1 "Phys(A)".toList) 0 0 1 ≠
      FREE := by decide
  ⟨h, (cells_written_once two_subjects_one_faculty (init_sections 1 2) 1 2 main_day_names
      (stream [0, 0, 0, 1, 0, 1, 0, 0])).2.2.2.2.1 _ h, hne,
    ((cells_written_once two_subjects_one_faculty (init_sections 1 2) 1 2 main_day_names
      (stream [0, 0, 0, 1, 0, 1, 0, 0])).1 ⟨"Math".toList, 1, [], "Alice".toList⟩ 0 0 0 1
      ⟨1, 0, ⟨write_cell (init_sections 1 2) 0 0 1 "Phys(A)".toList, 4,
        [⟨0, 1, 0, 1⟩]⟩⟩ hne).2,
    ⟨by decide, by decide, by decide⟩,
    (cells_written_once two_subjects_one_faculty (init_sections 1 2) 1 2 main_day_names
      (stream [0, 0, 0, 1, 0, 1, 0, 0])).2.2.2.2.2.2 0 0 1 (by decide) (by decide)
      (by decide)⟩

/-! ## Available days -/

theorem lowered_day_names_nodup :
    ((List.range MAX_DAYS).map fun d => to_lower_case (main_day_names.getD d [])).Nodup := by
  decide

/-- C16: with between one and seven working days, a subject that passes the
day-availability check of `main` has a working day whose lower-cased name is
none of its constraint strings, whatever these strings are. The converse fails:
with "monday" entered twice and two working days, Tuesday is free of
constraints, and the check `working_days - num_constraints ≥ 1` fails. -/
theorem available_day_exists :
    (∀ (sub : Subject) (working_days : Int), 1 ≤ working_days → working_days ≤ 7 →
      working_days - sub.num_constraints ≥ 1 →
      ∃ d : Nat, (d : Int) < working_days ∧
        to_lower_case (main_day_names.getD d []) ∉ sub.constraints) ∧
    ((∃ d : Nat, (d : Int) < 2 ∧
        to_lower_case (main_day_names.getD d []) ∉ monday_twice.constraints) ∧
      ¬ ((2 : Int) - monday_twice.num_constraints ≥ 1)) := by
  refine ⟨?_, ⟨1, by decide, by decide⟩, by decide⟩
  intro sub working_days h1 h7 havail
  by_contra hno
  have hall : ∀ d : Nat, (d : Int) < working_days →
      to_lower_case (main_day_names.getD d []) ∈ sub.constraints := by
    intro d hd
    by_contra hd'
    exact hno ⟨d, hd, hd'⟩
  have hsub : List.Sublist (List.range working_days.toNat) (List.range MAX_DAYS) :=
    List.range_sublist.2 (by simp only [MAX_DAYS]; omega)
  have hnodup : ((List.range working_days.toNat).map
      fun d => to_lower_case (main_day_names.getD d [])).Nodup :=
    lowered_day_names_nodup.sublist (hsub.map _)
  have hsubset : ((List.range working_days.toNat).map
      fun d => to_lower_case (main_day_names.getD d [])) ⊆ sub.constraints := by
    intro x hx
    obtain ⟨d, hd, rfl⟩ := List.mem_map.1 hx
    exact hall d (by have := List.mem_range.1 hd; omega)
  have hlen := (hnodup.subperm hsubset).length_le
  rw [List.length_map, List.length_range] at hlen
  unfold Subject.num_constraints at havail
  omega

/-- C16 at work: Math excludes "monday"; with two working days, Tuesday is free
of constraints. -/
theorem available_day_exists_witness :
    (1 : Int) ≤ 2 ∧ (2 : Int) ≤ 7 ∧
    (2 : Int) - (⟨"Math".toList, 1, ["monday".toList], "Alice".toList⟩ :
      Subject).num_constraints ≥ 1 ∧
    ∃ d : Nat, (d : Int) < 2 ∧ to_lower_case (main_day_names.getD d []) ∉
      (⟨"Math".toList, 1, ["monday".toList], "Alice".toList⟩ : Subject).constraints :=
  ⟨by decide, by decide, by decide,
    available_day_exists.1 ⟨"Math".toList, 1, ["monday".toList], "Alice".toList⟩ 2
      (by decide) (by decide) (by decide)⟩

/-! ## The moduli of the draws -/

theorem while_fuel_ok (working_days periods_per_day : Int) (rnd : Nat → Nat)
    (day_names : List CString) (sub : Subject) (i s : Nat)
    (hwd : working_days ≠ 0) (hppd : periods_per_day ≠ 0) :
    ∀ (n : Nat) (st : LoopState),
      ∃ r, while_fuel working_days periods_per_day rnd day_names sub i s n st = .ok r := by
  intro n
  induction n with
  | zero => intro st; exact ⟨st, rfl⟩
  | succ n ih =>
    intro st
    rw [while_fuel]
    by_cases hc : 0 < st.remaining ∧ st.attempts < max_attempts
    · rw [if_pos hc, rand_mod_some _ _ hwd, rand_mod_some _ _ hppd]
      exact ih _
    · rw [if_neg hc]
      exact ⟨st, rfl⟩

theorem while_loop_no_crash (working_days periods_per_day : Int) (rnd : Nat → Nat)
    (day_names : List CString) (sub : Subject) (i s : Nat) (st : LoopState)
    (h : 0 < st.remaining → working_days ≠ 0 ∧ periods_per_day ≠ 0) :
    ∃ r, while_loop working_days periods_per_day rnd day_names sub i s st = .ok r := by
  by_cases hr : 0 < st.remaining
  · rw [while_loop_eq_fuel _ _ _ _ _ _ _ _ _ (le_refl _)]
    exact while_fuel_ok working_days periods_per_day rnd day_names sub i s (h hr).1 (h hr).2 _ _
  · rw [while_loop, dif_neg (fun hc => hr hc.1)]
    exact ⟨st, rfl⟩

theorem subjects_loop_no_crash (working_days periods_per_day : Int) (rnd : Nat → Nat)
    (day_names : List CString) (s : Nat) :
    ∀ (l : List Subject) (i : Nat) (st : AllocState),
      (∀ sub ∈ l, 0 < sub.classes_per_week → working_days ≠ 0 ∧ periods_per_day ≠ 0) →
      (subjects_loop working_days periods_per_day rnd day_names s l i st).1 ≠
        Outcome.division_by_zero := by
  intro l
  induction l with
  | nil =>
    intro i st _
    rw [subjects_loop]
    exact fun h => Outcome.noConfusion h
  | cons sub rest ih =>
    intro i st h
    obtain ⟨r, hr⟩ := while_loop_no_crash working_days periods_per_day rnd day_names sub i s
      ⟨sub.classes_per_week, 0, st⟩ (h sub (List.mem_cons_self _ _))
    rw [subjects_loop, hr]
    dsimp only
    split
    · exact fun h => Outcome.noConfusion h
    · exact ih _ _ (fun sub' hsub' => h sub' (List.mem_cons_of_mem _ hsub'))

theorem sections_loop_no_crash (subjects : List Subject) (working_days periods_per_day : Int)
    (rnd : Nat → Nat) (day_names : List CString)
    (h : ∀ sub ∈ subjects, 0 < sub.classes_per_week →
      working_days ≠ 0 ∧ periods_per_day ≠ 0) :
    ∀ (ls : List Nat) (st : AllocState),
      (sections_loop subjects working_days periods_per_day rnd day_names ls st).1 ≠
        Outcome.division_by_zero := by
  intro ls
  induction ls with
  | nil =>
    intro st
    rw [sections_loop]
    exact fun h => Outcome.noConfusion h
  | cons s rest ih =>
    intro st
    have hs := subjects_loop_no_crash working_days periods_per_day rnd day_names s subjects 0
      st h
    rw [sections_loop]
    split
    · exact ih _
    · exact hs

theorem feasible_moduli (subjects : List Subject) (working_days periods_per_day : Int)
    (hf : feasible subjects working_days periods_per_day) (sub : Subject)
    (hsub : sub ∈ subjects) (hpos : 1 ≤ sub.classes_per_week) :
    1 ≤ working_days ∧ 1 ≤ periods_per_day := by
  obtain ⟨_, hdays, hcap⟩ := hf
  have h1 := hdays sub hsub
  have h2 := hcap sub hsub
  have hnc : (0 : Int) ≤ sub.num_constraints := Int.ofNat_nonneg _
  refine ⟨by omega, ?_⟩
  by_contra hp
  have hp' : periods_per_day ≤ 0 := by omega
  have : (working_days - sub.num_constraints) * periods_per_day ≤ 0 :=
    Int.mul_nonpos_of_nonneg_of_nonpos (by omega) hp'
  omega

/-- C15 fails when the product overflows: with one working day and -2147483647
periods per day, the product `1 * -2147483647 * 2` wraps around to 2, so the
feasibility checks accept "Math" with one class; `periods_per_day` is not
positive, and `rand() % periods_per_day` gives 5 for `rand() = 5`, which is not
below `periods_per_day`. -/
theorem negative_periods_accepted :
    feasibility_check one_class 1 (-2147483647) = none ∧
    (∃ sub ∈ one_class, 1 ≤ sub.classes_per_week) ∧
    ¬ (1 : Int) ≤ -2147483647 ∧
    rand_mod 5 (-2147483647) = some 5 ∧
    ¬ ((5 : Nat) : Int) < -2147483647 := by
  refine ⟨by decide, ⟨⟨"Math".toList, 1, [], "Alice".toList⟩, List.mem_cons_self _ _,
    by decide⟩, by decide, by decide, by decide⟩

/-- C15 as amended: for an input that the feasibility checks of `main` accept
without an overflow in their arithmetic, a subject with `classes_per_week ≥ 1`
forces `working_days ≥ 1` and `periods_per_day ≥ 1`, so that every value of
`rand()` gives a day `d < working_days` and a period `p < periods_per_day`; and
whatever the subjects are, `distribute_subjects` never evaluates `rand() % 0`. -/
theorem accepted_input_draws_in_range (subjects : List Subject)
    (working_days periods_per_day : Int)
    (hfit : no_overflow subjects working_days periods_per_day)
    (hfeas : feasibility_check subjects working_days periods_per_day = none) :
    ((∃ sub ∈ subjects, 1 ≤ sub.classes_per_week) →
      1 ≤ working_days ∧ 1 ≤ periods_per_day ∧
      ∀ r : Nat, (∃ d, rand_mod r working_days = some d ∧ (d : Int) < working_days) ∧
        (∃ p, rand_mod r periods_per_day = some p ∧ (p : Int) < periods_per_day)) ∧
    (∀ (sections : Nat → Section) (day_names : List CString) (rnd : Nat → Nat),
      (distribute_subjects subjects sections working_days periods_per_day day_names rnd).1 ≠
        Outcome.division_by_zero) := by
  have hf := (feasibility_check_none_iff subjects working_days periods_per_day hfit).1 hfeas
  refine ⟨?_, ?_⟩
  · rintro ⟨sub, hsub, hpos⟩
    obtain ⟨hwd, hppd⟩ := feasible_moduli subjects working_days periods_per_day hf sub hsub hpos
    refine ⟨hwd, hppd, fun r => ⟨?_, ?_⟩⟩
    · exact ⟨_, rand_mod_some r working_days (by omega),
        rand_mod_lt r _ _ (rand_mod_some r working_days (by omega)) (by omega)⟩
    · exact ⟨_, rand_mod_some r periods_per_day (by omega),
        rand_mod_lt r _ _ (rand_mod_some r periods_per_day (by omega)) (by omega)⟩
  · intro sections day_names rnd
    unfold distribute_subjects
    refine sections_loop_no_crash subjects working_days periods_per_day rnd day_names ?_ _ _
    intro sub hsub hpos
    obtain ⟨hwd, hppd⟩ := feasible_moduli subjects working_days periods_per_day hf sub hsub
      (by omega)
    exact ⟨by omega, by omega⟩

/-- C15 as amended, at work on the scenario of the specification (five days,
four periods, "Math" with four classes). -/
theorem accepted_input_draws_in_range_witness :
    no_overflow math_four 5 4 ∧
    feasibility_check math_four 5 4 = none ∧
    (∃ sub ∈ math_four, 1 ≤ sub.classes_per_week) ∧
    ((1 : Int) ≤ 5 ∧ (1 : Int) ≤ 4 ∧
      ∀ r : Nat, (∃ d, rand_mod r 5 = some d ∧ (d : Int) < 5) ∧
        (∃ p, rand_mod r 4 = some p ∧ (p : Int) < 4)) :=
  have hfit : no_overflow math_four 5 4 := by
    simp [no_overflow, sum_fits, product_fits, subject_fits, fits, INT_MIN, INT_MAX,
      math_four, Subject.num_constraints]
  have hfeas : feasibility_check math_four 5 4 = none := by decide
  have hsub : ∃ sub ∈ math_four, 1 ≤ sub.classes_per_week :=
    ⟨⟨"Math".toList, 4, [], "A".toList⟩, List.mem_cons_self _ _, by decide⟩
  ⟨hfit, hfeas, hsub, (accepted_input_draws_in_range math_four 5 4 hfit hfeas).1 hsub⟩

/-! ## The number of draws -/

theorem draws_left_decreases (day_names : List CString) (sub : Subject) (i s d p : Nat)
    (st : LoopState) (h : 0 < st.remaining ∧ st.attempts < max_attempts) :
    draws_left (loop_body day_names sub i s d p (after_draw st)) < draws_left st := by
  obtain ⟨hr, ha⟩ := h
  have hst : draws_left st =
      (st.remaining.toNat - 1) * max_attempts + (max_attempts - st.attempts) := by
    rw [draws_left, if_pos hr]
  rcases loop_body_cases day_names sub i s d p (after_draw st) with h | ⟨h1, h2⟩
  · rw [h, hst]
    have : draws_left (reject (after_draw st)) =
        (st.remaining.toNat - 1) * max_attempts + (max_attempts - (st.attempts + 1)) := by
      rw [draws_left]
      exact if_pos hr
    rw [this]
    simp only [max_attempts] at *
    omega
  · have h3 : (after_draw st).remaining = st.remaining := rfl
    rw [hst]
    unfold draws_left
    rw [h1, h2, h3]
    split
    · have : (st.remaining - 1).toNat + 1 = st.remaining.toNat := by omega
      rw [← this]
      simp only [max_attempts] at *
      omega
    · simp only [max_attempts] at *
      omega

theorem while_loop_eq_fuel_of_draws_left (working_days periods_per_day : Int)
    (rnd : Nat → Nat) (day_names : List CString) (sub : Subject) (i s : Nat) :
    ∀ (n : Nat) (st : LoopState), draws_left st ≤ n →
      while_loop working_days periods_per_day rnd day_names sub i s st =
        while_fuel working_days periods_per_day rnd day_names sub i s n st := by
  intro n
  induction n with
  | zero =>
    intro st h
    rw [while_loop, while_fuel]
    have : ¬ (0 < st.remaining ∧ st.attempts < max_attempts) := by
      rintro ⟨hr, ha⟩
      rw [draws_left, if_pos hr] at h
      simp only [max_attempts] at *
      omega
    rw [dif_neg this]
  | succ n ih =>
    intro st h
    rw [while_loop, while_fuel]
    by_cases hc : 0 < st.remaining ∧ st.attempts < max_attempts
    · rw [dif_pos hc, if_pos hc]
      split
      · rename_i d p _ _
        exact ih _ (by have := draws_left_decreases day_names sub i s d p st hc; omega)
      · rfl
    · rw [dif_neg hc, if_neg hc]

theorem loop_body_rand_calls (day_names : List CString) (sub : Subject) (i s d p : Nat)
    (st : LoopState) :
    (loop_body day_names sub i s d p st).alloc.rand_calls = st.alloc.rand_calls := by
  by_cases ha : accepts day_names sub s d p st.alloc.sections
  · rw [loop_body_of_accepts _ _ _ _ _ _ _ ha]
  · rw [loop_body_of_not_accepts _ _ _ _ _ _ _ ha]
    rfl

theorem while_fuel_rand_calls (working_days periods_per_day : Int) (rnd : Nat → Nat)
    (day_names : List CString) (sub : Subject) (i s : Nat) :
    ∀ (n : Nat) (st : LoopState),
      st.alloc.rand_calls ≤ (final_state (while_fuel working_days periods_per_day rnd
        day_names sub i s n st)).alloc.rand_calls ∧
      (final_state (while_fuel working_days periods_per_day rnd day_names sub i s n
        st)).alloc.rand_calls ≤ st.alloc.rand_calls + 2 * n := by
  intro n
  induction n with
  | zero => intro st; exact ⟨le_refl _, le_refl _⟩
  | succ n ih =>
    intro st
    rw [while_fuel]
    split
    · split
      · rename_i d p _ _
        have h := ih (loop_body day_names sub i s d p (after_draw st))
        rw [loop_body_rand_calls] at h
        have h2 : (after_draw st).alloc.rand_calls = st.alloc.rand_calls + 2 := rfl
        rw [h2] at h
        exact ⟨by omega, by omega⟩
      · exact ⟨le_refl _, by simp only [final_state]; omega⟩
    · exact ⟨le_refl _, by simp only [final_state]; omega⟩

theorem while_loop_rand_calls (working_days periods_per_day : Int) (rnd : Nat → Nat)
    (day_names : List CString) (sub : Subject) (i s : Nat) (a : AllocState) :
    a.rand_calls ≤ (final_state (while_loop working_days periods_per_day rnd day_names
      sub i s ⟨sub.classes_per_week, 0, a⟩)).alloc.rand_calls ∧
    (final_state (while_loop working_days periods_per_day rnd day_names sub i s
      ⟨sub.classes_per_week, 0, a⟩)).alloc.rand_calls ≤
        a.rand_calls + 2 * (sub.classes_per_week.toNat * max_attempts) := by
  have hle : draws_left ⟨sub.classes_per_week, 0, a⟩ ≤
      sub.classes_per_week.toNat * max_attempts := by
    unfold draws_left
    split
    · rename_i h
      have : (sub.classes_per_week.toNat - 1) + 1 = sub.classes_per_week.toNat := by
        have h' : 0 < sub.classes_per_week := h
        omega
      rw [← this]
      simp only [max_attempts]
      omega
    · exact Nat.zero_le _
  rw [while_loop_eq_fuel_of_draws_left _ _ _ _ _ _ _ _ _ hle]
  exact while_fuel_rand_calls working_days periods_per_day rnd day_names sub i s
    (sub.classes_per_week.toNat * max_attempts) ⟨sub.classes_per_week, 0, a⟩

theorem subjects_loop_rand_calls (working_days periods_per_day : Int) (rnd : Nat → Nat)
    (day_names : List CString) (s : Nat) :
    ∀ (l : List Subject) (i : Nat) (st : AllocState),
      (subjects_loop working_days periods_per_day rnd day_names s l i st).2.rand_calls ≤
        st.rand_calls + 2 * (max_attempts * sum_positive_classes l) := by
  intro l
  induction l with
  | nil =>
    intro i st
    rw [subjects_loop]
    exact Nat.le_add_right _ _
  | cons sub rest ih =>
    intro i st
    have hsum : sum_positive_classes (sub :: rest) =
        sub.classes_per_week.toNat + sum_positive_classes rest := by
      simp [sum_positive_classes]
    have hw := (while_loop_rand_calls working_days periods_per_day rnd day_names sub i s st).2
    rw [subjects_loop, hsum]
    cases hres : while_loop working_days periods_per_day rnd day_names sub i s
        ⟨sub.classes_per_week, 0, st⟩ with
    | error st' =>
      rw [hres] at hw
      simp only [final_state, max_attempts] at hw ⊢
      omega
    | ok st' =>
      rw [hres] at hw
      dsimp only
      split
      · simp only [final_state, max_attempts] at hw ⊢
        omega
      · have := ih (i + 1) st'.alloc
        simp only [final_state, max_attempts] at hw this ⊢
        omega

theorem sections_loop_rand_calls (subjects : List Subject)
    (working_days periods_per_day : Int) (rnd : Nat → Nat) (day_names : List CString) :
    ∀ (ls : List Nat) (st : AllocState),
      (sections_loop subjects working_days periods_per_day rnd day_names ls st).2.rand_calls ≤
        st.rand_calls + ls.length * (2 * (max_attempts * sum_positive_classes subjects)) := by
  intro ls
  induction ls with
  | nil =>
    intro st
    rw [sections_loop]
    exact Nat.le_add_right _ _
  | cons s rest ih =>
    intro st
    have hs := subjects_loop_rand_calls working_days periods_per_day rnd day_names s subjects
      0 st
    rw [sections_loop, List.length_cons, Nat.succ_mul]
    split
    · rename_i st' heq
      rw [heq] at hs
      dsimp only at hs
      have := ih st'
      generalize rest.length * (2 * (max_attempts * sum_positive_classes subjects)) = x at *
      generalize 2 * (max_attempts * sum_positive_classes subjects) = y at *
      omega
    · generalize rest.length * (2 * (max_attempts * sum_positive_classes subjects)) = x at *
      generalize 2 * (max_attempts * sum_positive_classes subjects) = y at *
      omega

/-- C14: the placement loop of one (section, subject) pair ends within
`classes_per_week * 10000` iterations, each of which makes one draw (two calls of
`rand()`); so it makes at most that many draws when `classes_per_week ≥ 1` and
none when `classes_per_week ≤ 0`, and a whole run of `distribute_subjects` makes
at most `2 * 10000` draws for each unit of the positive `classes_per_week`. -/
theorem draws_bounded (subjects : List Subject) (sections : Nat → Section)
    (working_days periods_per_day : Int) (day_names : List CString) (rnd : Nat → Nat) :
    (∀ (sub : Subject) (i s : Nat) (a : AllocState),
      while_loop working_days periods_per_day rnd day_names sub i s
          ⟨sub.classes_per_week, 0, a⟩ =
        while_fuel working_days periods_per_day rnd day_names sub i s
          (sub.classes_per_week.toNat * max_attempts) ⟨sub.classes_per_week, 0, a⟩ ∧
      (1 ≤ sub.classes_per_week →
        (((final_state (while_loop working_days periods_per_day rnd day_names sub i s
          ⟨sub.classes_per_week, 0, a⟩)).alloc.rand_calls : Nat) : Int) ≤
            a.rand_calls + 2 * (sub.classes_per_week * 10000)) ∧
      (sub.classes_per_week ≤ 0 →
        (final_state (while_loop working_days periods_per_day rnd day_names sub i s
          ⟨sub.classes_per_week, 0, a⟩)).alloc.rand_calls = a.rand_calls)) ∧
    (distribute_subjects subjects sections working_days periods_per_day day_names
      rnd).2.rand_calls ≤ 2 * (2 * 10000 * sum_positive_classes subjects) := by
  refine ⟨?_, ?_⟩
  · intro sub i s a
    have hle : draws_left ⟨sub.classes_per_week, 0, a⟩ ≤
        sub.classes_per_week.toNat * max_attempts := by
      unfold draws_left
      split
      · rename_i h
        have : (sub.classes_per_week.toNat - 1) + 1 = sub.classes_per_week.toNat := by
          have h' : 0 < sub.classes_per_week := h
          omega
        rw [← this]
        simp only [max_attempts]
        omega
      · exact Nat.zero_le _
    obtain ⟨h1, h2⟩ := while_loop_rand_calls working_days periods_per_day rnd day_names sub
      i s a
    refine ⟨while_loop_eq_fuel_of_draws_left _ _ _ _ _ _ _ _ _ hle, ?_, ?_⟩
    · intro hpos
      simp only [max_attempts] at h2
      omega
    · intro hneg
      have : sub.classes_per_week.toNat = 0 := by omega
      rw [this] at h2
      omega
  · have h := sections_loop_rand_calls subjects working_days periods_per_day rnd day_names
      (List.range MAX_SECTIONS) ⟨sections, 0, []⟩
    unfold distribute_subjects
    simp only [List.length_range, MAX_SECTIONS, max_attempts] at h ⊢
    omega

/-- C14 at work on the scenario of the specification: the loop of Math in
Section A makes four draws, within the bound of 40000. -/
theorem draws_bounded_witness :
    (1 : Int) ≤ (⟨"Math".toList, 4, [], "A".toList⟩ : Subject).classes_per_week ∧
    (final_state (while_loop 5 4 math_four_draws main_day_names
      ⟨"Math".toList, 4, [], "A".toList⟩ 0 0
      ⟨(⟨"Math".toList, 4, [], "A".toList⟩ : Subject).classes_per_week, 0,
        ⟨init_sections 5 4, 0, []⟩⟩)).alloc.rand_calls = 8 ∧
    (((final_state (while_loop 5 4 math_four_draws main_day_names
      ⟨"Math".toList, 4, [], "A".toList⟩ 0 0
      ⟨(⟨"Math".toList, 4, [], "A".toList⟩ : Subject).classes_per_week, 0,
        ⟨init_sections 5 4, 0, []⟩⟩)).alloc.rand_calls : Nat) : Int) ≤
      (⟨init_sections 5 4, 0, []⟩ : AllocState).rand_calls +
        2 * ((⟨"Math".toList, 4, [], "A".toList⟩ : Subject).classes_per_week * 10000) :=
  have h8 : (final_state (while_loop 5 4 math_four_draws main_day_names
      ⟨"Math".toList, 4, [], "A".toList⟩ 0 0
      ⟨(⟨"Math".toList, 4, [], "A".toList⟩ : Subject).classes_per_week, 0,
        ⟨init_sections 5 4, 0, []⟩⟩)).alloc.rand_calls = 8 := by
    rw [while_loop_eq_fuel _ _ _ _ _ _ _ _ _ (le_refl _)]
    decide
  ⟨by decide, h8,
    ((draws_bounded math_four (init_sections 5 4) 5 4 main_day_names math_four_draws).1
      ⟨"Math".toList, 4, [], "A".toList⟩ 0 0 ⟨init_sections 5 4, 0, []⟩).2.1 (by decide)⟩

/-! ## Placement failures and streaks of rejected draws -/

theorem while_loop_of_not_cond (working_days periods_per_day : Int) (rnd : Nat → Nat)
    (day_names : List CString) (sub : Subject) (i s : Nat) (st : LoopState)
    (hc : ¬ (0 < st.remaining ∧ st.attempts < max_attempts)) :
    while_loop working_days periods_per_day rnd day_names sub i s st = .ok st := by
  rw [while_loop, dif_neg hc]

theorem while_loop_of_draw (working_days periods_per_day : Int) (rnd : Nat → Nat)
    (day_names : List CString) (sub : Subject) (i s : Nat) (st : LoopState) (d p : Nat)
    (hc : 0 < st.remaining ∧ st.attempts < max_attempts)
    (hd : rand_mod (rnd st.alloc.rand_calls) working_days = some d)
    (hp : rand_mod (rnd (st.alloc.rand_calls + 1)) periods_per_day = some p) :
    while_loop working_days periods_per_day rnd day_names sub i s st =
      while_loop working_days periods_per_day rnd day_names sub i s
        (loop_body day_names sub i s d p (after_draw st)) := by
  rw [while_loop, dif_pos hc, hd, hp]

theorem loop_state_after_succ (working_days periods_per_day : Int) (rnd : Nat → Nat)
    (day_names : List CString) (sub : Subject) (i s : Nat) (st : LoopState) (d p n : Nat)
    (hc : 0 < st.remaining ∧ st.attempts < max_attempts)
    (hd : rand_mod (rnd st.alloc.rand_calls) working_days = some d)
    (hp : rand_mod (rnd (st.alloc.rand_calls + 1)) periods_per_day = some p) :
    loop_state_after working_days periods_per_day rnd day_names sub i s (n + 1) st =
      loop_state_after working_days periods_per_day rnd day_names sub i s n
        (loop_body day_names sub i s d p (after_draw st)) := by
  rw [loop_state_after, if_pos hc, hd, hp]

theorem loop_state_after_succ_some (working_days periods_per_day : Int) (rnd : Nat → Nat)
    (day_names : List CString) (sub : Subject) (i s : Nat) (st x : LoopState) (n : Nat)
    (h : loop_state_after working_days periods_per_day rnd day_names sub i s (n + 1) st =
      some x) :
    (0 < st.remaining ∧ st.attempts < max_attempts) ∧
    ∃ d p, rand_mod (rnd st.alloc.rand_calls) working_days = some d ∧
      rand_mod (rnd (st.alloc.rand_calls + 1)) periods_per_day = some p := by
  rw [loop_state_after] at h
  by_cases hc : 0 < st.remaining ∧ st.attempts < max_attempts
  · refine ⟨hc, ?_⟩
    rw [if_pos hc] at h
    cases hd : rand_mod (rnd st.alloc.rand_calls) working_days with
    | none => rw [hd] at h; cases h
    | some d =>
      cases hp : rand_mod (rnd (st.alloc.rand_calls + 1)) periods_per_day with
      | none => rw [hd, hp] at h; cases h
      | some p => exact ⟨d, p, rfl, rfl⟩
  · rw [if_neg hc] at h
    cases h

theorem draw_rejected_succ (working_days periods_per_day : Int) (rnd : Nat → Nat)
    (day_names : List CString) (sub : Subject) (i s : Nat) (st : LoopState) (d p n : Nat)
    (hc : 0 < st.remaining ∧ st.attempts < max_attempts)
    (hd : rand_mod (rnd st.alloc.rand_calls) working_days = some d)
    (hp : rand_mod (rnd (st.alloc.rand_calls + 1)) periods_per_day = some p) :
    draw_rejected working_days periods_per_day rnd day_names sub i s st (n + 1) ↔
      draw_rejected working_days periods_per_day rnd day_names sub i s
        (loop_body day_names sub i s d p (after_draw st)) n := by
  unfold draw_rejected
  rw [loop_state_after_succ _ _ _ _ _ _ _ _ _ _ _ hc hd hp]

theorem draw_rejected_zero (working_days periods_per_day : Int) (rnd : Nat → Nat)
    (day_names : List CString) (sub : Subject) (i s : Nat) (st : LoopState) (d p : Nat)
    (hc : 0 < st.remaining ∧ st.attempts < max_attempts)
    (hd : rand_mod (rnd st.alloc.rand_calls) working_days = some d)
    (hp : rand_mod (rnd (st.alloc.rand_calls + 1)) periods_per_day = some p)
    (ha : ¬ accepts day_names sub s d p st.alloc.sections) :
    draw_rejected working_days periods_per_day rnd day_names sub i s st 0 :=
  ⟨st, d, p, rfl, hc, hd, hp, ha⟩

theorem draw_rejected_zero_elim (working_days periods_per_day : Int) (rnd : Nat → Nat)
    (day_names : List CString) (sub : Subject) (i s : Nat) (st : LoopState)
    (h : draw_rejected working_days periods_per_day rnd day_names sub i s st 0) :
    (0 < st.remaining ∧ st.attempts < max_attempts) ∧
    ∃ d p, rand_mod (rnd st.alloc.rand_calls) working_days = some d ∧
      rand_mod (rnd (st.alloc.rand_calls + 1)) periods_per_day = some p ∧
      ¬ accepts day_names sub s d p st.alloc.sections := by
  obtain ⟨stk, d, p, h0, hc, hd, hp, ha⟩ := h
  rw [loop_state_after] at h0
  cases h0
  exact ⟨hc, d, p, hd, hp, ha⟩

theorem streak_of_failure (working_days periods_per_day : Int) (rnd : Nat → Nat)
    (day_names : List CString) (sub : Subject) (i s : Nat) :
    ∀ (n : Nat) (st : LoopState), loop_measure st ≤ n → ∀ r,
      while_loop working_days periods_per_day rnd day_names sub i s st = .ok r →
      0 < r.remaining →
      (∀ j, j < max_attempts - st.attempts →
        draw_rejected working_days periods_per_day rnd day_names sub i s st j) ∨
      rejected_streak working_days periods_per_day rnd day_names sub i s st := by
  intro n
  induction n with
  | zero =>
    intro st hm r hr hpos
    have hc : ¬ (0 < st.remaining ∧ st.attempts < max_attempts) := by
      simp only [loop_measure, max_attempts] at *
      omega
    rw [while_loop_of_not_cond _ _ _ _ _ _ _ _ hc] at hr
    cases hr
    left
    intro j hj
    omega
  | succ n ih =>
    intro st hm r hr hpos
    by_cases hc : 0 < st.remaining ∧ st.attempts < max_attempts
    · cases hd : rand_mod (rnd st.alloc.rand_calls) working_days with
      | none =>
        rw [while_loop, dif_pos hc, hd] at hr
        cases hr
      | some d =>
        cases hp : rand_mod (rnd (st.alloc.rand_calls + 1)) periods_per_day with
        | none =>
          rw [while_loop, dif_pos hc, hd, hp] at hr
          cases hr
        | some p =>
          rw [while_loop_of_draw _ _ _ _ _ _ _ _ d p hc hd hp] at hr
          have hdec := loop_measure_decreases day_names sub i s d p st hc
          have hih := ih _ (by omega) r hr hpos
          have hshift : ∀ k, (∀ j, j < max_attempts →
              draw_rejected working_days periods_per_day rnd day_names sub i s
                (loop_body day_names sub i s d p (after_draw st)) (k + j)) →
              rejected_streak working_days periods_per_day rnd day_names sub i s st := by
            intro k hk
            refine ⟨k + 1, fun j hj => ?_⟩
            rw [show k + 1 + j = (k + j) + 1 by omega,
              draw_rejected_succ _ _ _ _ _ _ _ _ d p _ hc hd hp]
            exact hk j hj
          by_cases ha : accepts day_names sub s d p (after_draw st).alloc.sections
          · right
            have hatt : (loop_body day_names sub i s d p (after_draw st)).attempts = 0 := by
              rw [loop_body_of_accepts _ _ _ _ _ _ _ ha]
            rcases hih with h | ⟨k, hk⟩
            · exact hshift 0 (fun j hj => by
                rw [Nat.zero_add]
                exact h j (by rw [hatt]; omega))
            · exact hshift k hk
          · rcases hih with h | ⟨k, hk⟩
            · left
              intro j hj
              cases j with
              | zero => exact draw_rejected_zero _ _ _ _ _ _ _ _ d p hc hd hp ha
              | succ j =>
                rw [draw_rejected_succ _ _ _ _ _ _ _ _ d p _ hc hd hp]
                apply h
                rw [loop_body_of_not_accepts _ _ _ _ _ _ _ ha]
                simp only [reject, after_draw]
                omega
            · exact Or.inr (hshift k hk)
    · rw [while_loop_of_not_cond _ _ _ _ _ _ _ _ hc] at hr
      cases hr
      left
      intro j hj
      omega

theorem while_loop_after_rejections (working_days periods_per_day : Int) (rnd : Nat → Nat)
    (day_names : List CString) (sub : Subject) (i s : Nat) :
    ∀ (n : Nat) (st : LoopState),
      (∀ j, j < n → draw_rejected working_days periods_per_day rnd day_names sub i s st j) →
      ∃ st', while_loop working_days periods_per_day rnd day_names sub i s st =
          while_loop working_days periods_per_day rnd day_names sub i s st' ∧
        st'.remaining = st.remaining ∧ st'.attempts = st.attempts + n := by
  intro n
  induction n with
  | zero => intro st _; exact ⟨st, rfl, rfl, rfl⟩
  | succ n ih =>
    intro st h
    obtain ⟨hc, d, p, hd, hp, ha⟩ :=
      draw_rejected_zero_elim _ _ _ _ _ _ _ _ (h 0 (Nat.succ_pos n))
    have ha' : ¬ accepts day_names sub s d p (after_draw st).alloc.sections := ha
    obtain ⟨st', h1, h2, h3⟩ := ih (loop_body day_names sub i s d p (after_draw st))
      (fun j hj => (draw_rejected_succ _ _ _ _ _ _ _ _ d p j hc hd hp).1 (h (j + 1) (by omega)))
    refine ⟨st', ?_, ?_, ?_⟩
    · rw [while_loop_of_draw _ _ _ _ _ _ _ _ d p hc hd hp]
      exact h1
    · rw [h2, loop_body_of_not_accepts _ _ _ _ _ _ _ ha']
      rfl
    · rw [h3, loop_body_of_not_accepts _ _ _ _ _ _ _ ha']
      simp only [reject, after_draw]
      omega

theorem failure_of_streak (working_days periods_per_day : Int) (rnd : Nat → Nat)
    (day_names : List CString) (sub : Subject) (i s : Nat) :
    ∀ (k : Nat) (st : LoopState),
      (∀ j, j < max_attempts →
        draw_rejected working_days periods_per_day rnd day_names sub i s st (k + j)) →
      ∃ r, while_loop working_days periods_per_day rnd day_names sub i s st = .ok r ∧
        0 < r.remaining := by
  intro k
  induction k with
  | zero =>
    intro st h
    have h' : ∀ j, j < max_attempts →
        draw_rejected working_days periods_per_day rnd day_names sub i s st j := by
      intro j hj
      have := h j hj
      rwa [Nat.zero_add] at this
    obtain ⟨hc, _⟩ := draw_rejected_zero_elim _ _ _ _ _ _ _ _ (h' 0 (by decide))
    obtain ⟨st', h1, h2, h3⟩ := while_loop_after_rejections working_days periods_per_day rnd
      day_names sub i s max_attempts st h'
    refine ⟨st', ?_, by rw [h2]; exact hc.1⟩
    rw [h1]
    exact while_loop_of_not_cond _ _ _ _ _ _ _ _ (by rintro ⟨_, h⟩; omega)
  | succ k ih =>
    intro st h
    have h0 := h 0 (by decide)
    obtain ⟨stk, _, _, hsome, _⟩ := h0
    rw [show k + 1 + 0 = k + 1 by omega] at hsome
    obtain ⟨hc, d, p, hd, hp⟩ := loop_state_after_succ_some _ _ _ _ _ _ _ _ _ _ hsome
    rw [while_loop_of_draw _ _ _ _ _ _ _ _ d p hc hd hp]
    apply ih
    intro j hj
    have := h j hj
    rw [show k + 1 + j = (k + j) + 1 by omega,
      draw_rejected_succ _ _ _ _ _ _ _ _ d p _ hc hd hp] at this
    exact this

theorem loop_fails_iff_streak (working_days periods_per_day : Int) (rnd : Nat → Nat)
    (day_names : List CString) (sub : Subject) (i s : Nat) (st : LoopState)
    (h0 : st.attempts = 0) :
    (∃ r, while_loop working_days periods_per_day rnd day_names sub i s st = .ok r ∧
      0 < r.remaining) ↔
      rejected_streak working_days periods_per_day rnd day_names sub i s st := by
  constructor
  · rintro ⟨r, hr, hpos⟩
    rcases streak_of_failure working_days periods_per_day rnd day_names sub i s _ st
      (le_refl _) r hr hpos with h | h
    · exact ⟨0, fun j hj => by rw [Nat.zero_add]; exact h j (by omega)⟩
    · exact h
  · rintro ⟨k, hk⟩
    exact failure_of_streak working_days periods_per_day rnd day_names sub i s k st hk

theorem subjects_loop_cons_error (working_days periods_per_day : Int) (rnd : Nat → Nat)
    (day_names : List CString) (s : Nat) (sub : Subject) (rest : List Subject) (i : Nat)
    (st : AllocState) (e : LoopState)
    (hW : while_loop working_days periods_per_day rnd day_names sub i s
      ⟨sub.classes_per_week, 0, st⟩ = .error e) :
    subjects_loop working_days periods_per_day rnd day_names s (sub :: rest) i st =
      (Outcome.division_by_zero, e.alloc) := by
  rw [subjects_loop, hW]

theorem subjects_loop_cons_failed (working_days periods_per_day : Int) (rnd : Nat → Nat)
    (day_names : List CString) (s : Nat) (sub : Subject) (rest : List Subject) (i : Nat)
    (st : AllocState) (r : LoopState)
    (hW : while_loop working_days periods_per_day rnd day_names sub i s
      ⟨sub.classes_per_week, 0, st⟩ = .ok r)
    (hpos : 0 < r.remaining) :
    subjects_loop working_days periods_per_day rnd day_names s (sub :: rest) i st =
      (Outcome.placement_failed s i r.remaining, r.alloc) := by
  rw [subjects_loop, hW]
  exact if_pos hpos

theorem subjects_loop_cons_placed (working_days periods_per_day : Int) (rnd : Nat → Nat)
    (day_names : List CString) (s : Nat) (sub : Subject) (rest : List Subject) (i : Nat)
    (st : AllocState) (r : LoopState)
    (hW : while_loop working_days periods_per_day rnd day_names sub i s
      ⟨sub.classes_per_week, 0, st⟩ = .ok r)
    (hpos : ¬ 0 < r.remaining) :
    subjects_loop working_days periods_per_day rnd day_names s (sub :: rest) i st =
      subjects_loop working_days periods_per_day rnd day_names s rest (i + 1) r.alloc := by
  rw [subjects_loop, hW]
  exact if_neg hpos

theorem subjects_loop_failed_iff (working_days periods_per_day : Int) (rnd : Nat → Nat)
    (day_names : List CString) (s : Nat) :
    ∀ (l : List Subject) (i₀ : Nat) (st : AllocState) (s' i' : Nat),
      (∃ rem, (subjects_loop working_days periods_per_day rnd day_names s l i₀ st).1 =
        Outcome.placement_failed s' i' rem) ↔
      (s' = s ∧ ∃ k sub a, i' = i₀ + k ∧ l[k]? = some sub ∧
        subjects_loop working_days periods_per_day rnd day_names s (l.take k) i₀ st =
          (Outcome.completed, a) ∧
        ∃ r, while_loop working_days periods_per_day rnd day_names sub i' s
          ⟨sub.classes_per_week, 0, a⟩ = .ok r ∧ 0 < r.remaining) := by
  intro l
  induction l with
  | nil =>
    intro i₀ st s' i'
    constructor
    · rintro ⟨rem, h⟩
      rw [subjects_loop] at h
      cases h
    · rintro ⟨_, k, sub, a, _, hk, _⟩
      simp at hk
  | cons sub rest ih =>
    intro i₀ st s' i'
    cases hW : while_loop working_days periods_per_day rnd day_names sub i₀ s
        ⟨sub.classes_per_week, 0, st⟩ with
    | error e =>
      constructor
      · rintro ⟨rem, h⟩
        rw [subjects_loop_cons_error _ _ _ _ _ _ _ _ _ _ hW] at h
        cases h
      · rintro ⟨_, k, sub', a, hi, hk, htake, r, hr, _⟩
        cases k with
        | zero =>
          simp only [List.getElem?_cons_zero, Option.some.injEq] at hk
          subst hk
          rw [hi, Nat.add_zero] at hr
          rw [List.take_zero, subjects_loop] at htake
          cases htake
          rw [hW] at hr
          cases hr
        | succ k =>
          rw [List.take_succ_cons, subjects_loop_cons_error _ _ _ _ _ _ _ _ _ _ hW] at htake
          cases htake
    | ok st₁ =>
      by_cases hpos : 0 < st₁.remaining
      · constructor
        · rintro ⟨rem, h⟩
          rw [subjects_loop_cons_failed _ _ _ _ _ _ _ _ _ _ hW hpos] at h
          simp only [Outcome.placement_failed.injEq] at h
          obtain ⟨h1, h2, _⟩ := h
          refine ⟨h1.symm, 0, sub, st, by omega, by simp, ?_, st₁, ?_, hpos⟩
          · rw [List.take_zero, subjects_loop]
          · rw [← h2]
            exact hW
        · rintro ⟨hs, k, sub', a, hi, hk, htake, r, hr, _⟩
          cases k with
          | zero =>
            refine ⟨st₁.remaining, ?_⟩
            rw [subjects_loop_cons_failed _ _ _ _ _ _ _ _ _ _ hW hpos, hs, hi]
            rfl
          | succ k =>
            rw [List.take_succ_cons,
              subjects_loop_cons_failed _ _ _ _ _ _ _ _ _ _ hW hpos] at htake
            cases htake
      · rw [subjects_loop_cons_placed _ _ _ _ _ _ _ _ _ _ hW hpos, ih (i₀ + 1) st₁.alloc s' i']
        constructor
        · rintro ⟨hs, k, sub', a, hi, hk, htake, hr⟩
          refine ⟨hs, k + 1, sub', a, by omega, by simpa using hk, ?_, hr⟩
          rw [List.take_succ_cons, subjects_loop_cons_placed _ _ _ _ _ _ _ _ _ _ hW hpos]
          exact htake
        · rintro ⟨hs, k, sub', a, hi, hk, htake, r, hr, hr'⟩
          cases k with
          | zero =>
            exfalso
            simp only [List.getElem?_cons_zero, Option.some.injEq] at hk
            subst hk
            rw [hi, Nat.add_zero] at hr
            rw [List.take_zero, subjects_loop] at htake
            cases htake
            rw [hW] at hr
            cases hr
            exact hpos hr'
          | succ k =>
            rw [List.take_succ_cons,
              subjects_loop_cons_placed _ _ _ _ _ _ _ _ _ _ hW hpos] at htake
            exact ⟨hs, k, sub', a, by omega, by simpa using hk, htake, r, hr, hr'⟩

theorem sections_loop_cons_completed (subjects : List Subject)
    (working_days periods_per_day : Int) (rnd : Nat → Nat) (day_names : List CString)
    (t : Nat) (rest : List Nat) (st st' : AllocState)
    (h : subjects_loop working_days periods_per_day rnd day_names t subjects 0 st =
      (Outcome.completed, st')) :
    sections_loop subjects working_days periods_per_day rnd day_names (t :: rest) st =
      sections_loop subjects working_days periods_per_day rnd day_names rest st' := by
  rw [sections_loop, h]

theorem sections_loop_cons_other (subjects : List Subject)
    (working_days periods_per_day : Int) (rnd : Nat → Nat) (day_names : List CString)
    (t : Nat) (rest : List Nat) (st : AllocState)
    (h : (subjects_loop working_days periods_per_day rnd day_names t subjects 0 st).1 ≠
      Outcome.completed) :
    sections_loop subjects working_days periods_per_day rnd day_names (t :: rest) st =
      subjects_loop working_days periods_per_day rnd day_names t subjects 0 st := by
  rw [sections_loop]
  split
  · rename_i st' heq
    rw [heq] at h
    exact absurd rfl h
  · rfl

theorem sections_loop_failed_iff (subjects : List Subject)
    (working_days periods_per_day : Int) (rnd : Nat → Nat) (day_names : List CString) :
    ∀ (ls : List Nat) (st : AllocState) (s i : Nat),
      (∃ rem, (sections_loop subjects working_days periods_per_day rnd day_names ls st).1 =
        Outcome.placement_failed s i rem) ↔
      ∃ m a, ls[m]? = some s ∧
        sections_loop subjects working_days periods_per_day rnd day_names (ls.take m) st =
          (Outcome.completed, a) ∧
        ∃ rem, (subjects_loop working_days periods_per_day rnd day_names s subjects 0 a).1 =
          Outcome.placement_failed s i rem := by
  intro ls
  induction ls with
  | nil =>
    intro st s i
    constructor
    · rintro ⟨rem, h⟩
      rw [sections_loop] at h
      cases h
    · rintro ⟨m, a, hm, _⟩
      simp at hm
  | cons t rest ih =>
    intro st s i
    by_cases hX : (subjects_loop working_days periods_per_day rnd day_names t subjects 0
        st).1 = Outcome.completed
    · have hX' : subjects_loop working_days periods_per_day rnd day_names t subjects 0 st =
          (Outcome.completed,
            (subjects_loop working_days periods_per_day rnd day_names t subjects 0 st).2) :=
        Prod.ext hX rfl
      rw [sections_loop_cons_completed _ _ _ _ _ _ _ _ _ hX', ih]
      constructor
      · rintro ⟨m, a, hm, htake, hf⟩
        refine ⟨m + 1, a, by simpa using hm, ?_, hf⟩
        rw [List.take_succ_cons, sections_loop_cons_completed _ _ _ _ _ _ _ _ _ hX']
        exact htake
      · rintro ⟨m, a, hm, htake, rem, hf⟩
        cases m with
        | zero =>
          exfalso
          simp only [List.getElem?_cons_zero, Option.some.injEq] at hm
          subst hm
          rw [List.take_zero, sections_loop] at htake
          cases htake
          rw [hX] at hf
          cases hf
        | succ m =>
          rw [List.take_succ_cons,
            sections_loop_cons_completed _ _ _ _ _ _ _ _ _ hX'] at htake
          exact ⟨m, a, by simpa using hm, htake, rem, hf⟩
    · rw [sections_loop_cons_other _ _ _ _ _ _ _ _ hX]
      constructor
      · rintro ⟨rem, h⟩
        have hs := ((subjects_loop_failed_iff working_days periods_per_day rnd day_names t
          subjects 0 st s i).1 ⟨rem, h⟩).1
        subst hs
        refine ⟨0, st, by simp, ?_, rem, h⟩
        rw [List.take_zero, sections_loop]
      · rintro ⟨m, a, hm, htake, rem, hf⟩
        cases m with
        | zero =>
          simp only [List.getElem?_cons_zero, Option.some.injEq] at hm
          subst hm
          rw [List.take_zero, sections_loop] at htake
          cases htake
          exact ⟨rem, hf⟩
        | succ m =>
          exfalso
          rw [List.take_succ_cons, sections_loop_cons_other _ _ _ _ _ _ _ _ hX] at htake
          rw [htake] at hX
          exact hX rfl

theorem pair_start_completed_iff (subjects : List Subject) (sections : Nat → Section)
    (working_days periods_per_day : Int) (day_names : List CString) (rnd : Nat → Nat)
    (s i : Nat) (a : AllocState) :
    pair_start subjects sections working_days periods_per_day day_names rnd s i =
        (Outcome.completed, a) ↔
      ∃ a₀, sections_loop subjects working_days periods_per_day rnd day_names (List.range s)
          ⟨sections, 0, []⟩ = (Outcome.completed, a₀) ∧
        subjects_loop working_days periods_per_day rnd day_names s (subjects.take i) 0 a₀ =
          (Outcome.completed, a) := by
  unfold pair_start
  constructor
  · intro h
    split at h
    · rename_i st heq
      exact ⟨st, heq, h⟩
    · rename_i hnot
      exact absurd h (hnot a)
  · rintro ⟨a₀, h1, h2⟩
    rw [h1]
    exact h2

/-- C11 fails with no working days: `distribute_subjects`, called for "Math"
with one class, 0 working days and one period, takes up the pair of Section A
and Math, no draw of that pair is rejected, so there is no streak of 10000
rejected draws, and yet the pair is not placed: the first draw evaluates
`rand() % 0`, the loop does not end normally and no cell is written. -/
theorem zero_days_pair_not_placed :
    one_class[0]? = some ⟨"Math".toList, 1, [], "Alice".toList⟩ ∧
    pair_start one_class (init_sections 0 1) 0 1 main_day_names (stream []) 0 0 =
      (Outcome.completed, ⟨init_sections 0 1, 0, []⟩) ∧
    ¬ rejected_streak 0 1 (stream []) main_day_names
      ⟨"Math".toList, 1, [], "Alice".toList⟩ 0 0 ⟨1, 0, ⟨init_sections 0 1, 0, []⟩⟩ ∧
    (∀ r, while_loop 0 1 (stream []) main_day_names
      ⟨"Math".toList, 1, [], "Alice".toList⟩ 0 0 ⟨1, 0, ⟨init_sections 0 1, 0, []⟩⟩ ≠
        .ok r) ∧
    (distribute_subjects one_class (init_sections 0 1) 0 1 main_day_names (stream [])).1 =
      Outcome.division_by_zero ∧
    (distribute_subjects one_class (init_sections 0 1) 0 1 main_day_names
      (stream [])).2.written = [] := by
  refine ⟨rfl, rfl, ?_, ?_, ?_, ?_⟩
  · rintro ⟨k, h⟩
    obtain ⟨stk, d, p, _, _, hd, _⟩ := h 0 (by decide)
    simp [rand_mod] at hd
  · intro r h
    rw [while_loop, dif_pos (by decide)] at h
    have h0 : rand_mod (stream [] 0) 0 = none := rfl
    rw [h0] at h
    cases h
  · rw [distribute_subjects_eq_fuel]; decide
  · rw [distribute_subjects_eq_fuel]; decide

/-- C11 as amended: `distribute_subjects` reports a placement failure for section
`s` and subject `i` exactly when the run reaches that pair and, in its placement
loop, `max_attempts` (10000) consecutive draws are rejected while
`remaining > 0`. A kept draw resets `attempts` to 0; so when no such streak
occurs, and `working_days` and `periods_per_day` are not zero, the loop of the
pair ends with nothing remaining and `classes_per_week` cells written, however
many draws are rejected in total. -/
theorem placement_failure_iff_streak (subjects : List Subject) (sections : Nat → Section)
    (working_days periods_per_day : Int) (day_names : List CString) (rnd : Nat → Nat)
    (s i : Nat) :
    ((∃ rem, (distribute_subjects subjects sections working_days periods_per_day day_names
        rnd).1 = Outcome.placement_failed s i rem) ↔
      (s < MAX_SECTIONS ∧ ∃ sub a, subjects[i]? = some sub ∧
        pair_start subjects sections working_days periods_per_day day_names rnd s i =
          (Outcome.completed, a) ∧
        rejected_streak working_days periods_per_day rnd day_names sub i s
          ⟨sub.classes_per_week, 0, a⟩)) ∧
    (∀ (sub : Subject) (d p : Nat) (st : LoopState),
      accepts day_names sub s d p st.alloc.sections →
        (loop_body day_names sub i s d p st).attempts = 0) ∧
    (∀ (sub : Subject) (a : AllocState), subjects[i]? = some sub →
      pair_start subjects sections working_days periods_per_day day_names rnd s i =
        (Outcome.completed, a) →
      working_days ≠ 0 → periods_per_day ≠ 0 →
      ¬ rejected_streak working_days periods_per_day rnd day_names sub i s
        ⟨sub.classes_per_week, 0, a⟩ →
      ∃ r, while_loop working_days periods_per_day rnd day_names sub i s
          ⟨sub.classes_per_week, 0, a⟩ = .ok r ∧
        ¬ 0 < r.remaining ∧
        (cells_of r.alloc.written s i).length =
          (cells_of a.written s i).length + sub.classes_per_week.toNat) := by
  refine ⟨?_, ?_, ?_⟩
  · unfold distribute_subjects
    rw [sections_loop_failed_iff]
    constructor
    · rintro ⟨m, a₀, hm, htake, hf⟩
      obtain ⟨hlt, heq⟩ := List.getElem?_eq_some_iff.1 hm
      rw [List.getElem_range] at heq
      subst heq
      rw [List.length_range] at hlt
      rw [List.take_range, Nat.min_eq_left (Nat.le_of_lt hlt)] at htake
      obtain ⟨_, k, sub, a, hi, hk, htk, hloop⟩ :=
        (subjects_loop_failed_iff working_days periods_per_day rnd day_names m subjects 0 a₀
          m i).1 hf
      rw [Nat.zero_add] at hi
      subst hi
      exact ⟨hlt, sub, a, hk,
        (pair_start_completed_iff subjects sections working_days periods_per_day day_names
          rnd m i a).2 ⟨a₀, htake, htk⟩,
        (loop_fails_iff_streak working_days periods_per_day rnd day_names sub i m _ rfl).1
          hloop⟩
    · rintro ⟨hs, sub, a, hsub, hstart, hstreak⟩
      obtain ⟨a₀, h1, h2⟩ := (pair_start_completed_iff subjects sections working_days
        periods_per_day day_names rnd s i a).1 hstart
      refine ⟨s, a₀, List.getElem?_range hs, ?_, ?_⟩
      · rw [List.take_range, Nat.min_eq_left (Nat.le_of_lt hs)]
        exact h1
      · exact (subjects_loop_failed_iff working_days periods_per_day rnd day_names s subjects
          0 a₀ s i).2 ⟨rfl, i, sub, a, by omega, hsub, h2,
            (loop_fails_iff_streak working_days periods_per_day rnd day_names sub i s _
              rfl).2 hstreak⟩
  · intro sub d p st ha
    rw [loop_body_of_accepts _ _ _ _ _ _ _ ha]
  · intro sub a _ _ hwd hppd hno
    obtain ⟨r, hr⟩ := while_loop_no_crash working_days periods_per_day rnd day_names sub i s
      ⟨sub.classes_per_week, 0, a⟩ (fun _ => ⟨hwd, hppd⟩)
    have hdone : ¬ 0 < r.remaining := fun hpos =>
      hno ((loop_fails_iff_streak working_days periods_per_day rnd day_names sub i s _
        rfl).1 ⟨r, hr, hpos⟩)
    exact ⟨r, hr, hdone,
      (while_loop_count working_days periods_per_day rnd day_names sub i s a r hr hdone).2⟩

/-- C11 as amended, at work. With one cell, Math with two classes fails in
Section A, so 10000 consecutive draws are rejected in the loop of that pair. With Mondays
excluded, the draw of Monday is rejected, no streak of 10000 occurs, and the loop
of Math in Section A ends with nothing remaining and one cell written. -/
theorem placement_failure_iff_streak_witness :
    ((∃ rem, (distribute_subjects two_classes_one_cell (init_sections 1 1) 1 1
        main_day_names (stream [])).1 = Outcome.placement_failed 0 0 rem) ∧
      (0 < MAX_SECTIONS ∧ ∃ sub a, two_classes_one_cell[0]? = some sub ∧
        pair_start two_classes_one_cell (init_sections 1 1) 1 1 main_day_names (stream [])
          0 0 = (Outcome.completed, a) ∧
        rejected_streak 1 1 (stream []) main_day_names sub 0 0
          ⟨sub.classes_per_week, 0, a⟩)) ∧
    (math_not_on_monday[0]? = some ⟨"Math".toList, 1, ["monday".toList], "Alice".toList⟩ ∧
      pair_start math_not_on_monday (init_sections 2 2) 2 2 main_day_names
        (stream [0, 0, 1, 0, 1, 1]) 0 0 = (Outcome.completed, ⟨init_sections 2 2, 0, []⟩) ∧
      (2 : Int) ≠ 0 ∧
      ¬ rejected_streak 2 2 (stream [0, 0, 1, 0, 1, 1]) main_day_names
        ⟨"Math".toList, 1, ["monday".toList], "Alice".toList⟩ 0 0
        ⟨(⟨"Math".toList, 1, ["monday".toList], "Alice".toList⟩ : Subject).classes_per_week,
          0, ⟨init_sections 2 2, 0, []⟩⟩ ∧
      ∃ r, while_loop 2 2 (stream [0, 0, 1, 0, 1, 1]) main_day_names
          ⟨"Math".toList, 1, ["monday".toList], "Alice".toList⟩ 0 0
          ⟨(⟨"Math".toList, 1, ["monday".toList], "Alice".toList⟩ :
            Subject).classes_per_week, 0, ⟨init_sections 2 2, 0, []⟩⟩ = .ok r ∧
        ¬ 0 < r.remaining ∧
        (cells_of r.alloc.written 0 0).length =
          (cells_of (⟨init_sections 2 2, 0, []⟩ : AllocState).written 0 0).length +
            (⟨"Math".toList, 1, ["monday".toList], "Alice".toList⟩ :
              Subject).classes_per_week.toNat) :=
  have hfail : ∃ rem, (distribute_subjects two_classes_one_cell (init_sections 1 1) 1 1
      main_day_names (stream [])).1 = Outcome.placement_failed 0 0 rem :=
    ⟨1, one_cell_run_fails (stream [])⟩
  have hstart : pair_start math_not_on_monday (init_sections 2 2) 2 2 main_day_names
      (stream [0, 0, 1, 0, 1, 1]) 0 0 = (Outcome.completed, ⟨init_sections 2 2, 0, []⟩) :=
    rfl
  have hdone : (distribute_subjects math_not_on_monday (init_sections 2 2) 2 2
      main_day_names (stream [0, 0, 1, 0, 1, 1])).1 = Outcome.completed := by
    rw [distribute_subjects_eq_fuel]; decide
  have hno : ¬ rejected_streak 2 2 (stream [0, 0, 1, 0, 1, 1]) main_day_names
      ⟨"Math".toList, 1, ["monday".toList], "Alice".toList⟩ 0 0
      ⟨(⟨"Math".toList, 1, ["monday".toList], "Alice".toList⟩ : Subject).classes_per_week,
        0, ⟨init_sections 2 2, 0, []⟩⟩ := by
    intro hstreak
    obtain ⟨rem, h⟩ := (placement_failure_iff_streak math_not_on_monday (init_sections 2 2)
      2 2 main_day_names (stream [0, 0, 1, 0, 1, 1]) 0 0).1.2
      ⟨by decide, _, _, rfl, hstart, hstreak⟩
    rw [hdone] at h
    cases h
  ⟨⟨hfail, (placement_failure_iff_streak two_classes_one_cell (init_sections 1 1) 1 1
      main_day_names (stream []) 0 0).1.1 hfail⟩,
    rfl, hstart, by decide, hno,
    (placement_failure_iff_streak math_not_on_monday (init_sections 2 2) 2 2 main_day_names
      (stream [0, 0, 1, 0, 1, 1]) 0 0).2.2 _ _ rfl hstart (by decide) (by decide) hno⟩

end Timetable
